import Mathlib

/-!
Shallow embedding of the core of the `pyhf` repository (files
`src/pyhf/pdf.py` and `src/pyhf/optimize/opt_tflow.py`) and proofs about it.

Numeric values carried by the model (nominal yields, parameters, modifier
contributions) are embedded as rationals `ℚ`; the backend's transcendental
primitives (`log`, Poisson/normal densities, autodiff) are external
collaborators of the core and are taken as function parameters.
-/

set_option maxHeartbeats 1000000

namespace PyhfProof

/-- Exceptions that the embedded code can raise.  `InvalidModel`,
`InvalidModifier` and `InvalidNameReuse` come from `pyhf.exceptions`;
`AssertionError` models a failing Python `assert` statement; `KeyError` a
missing dictionary key; `ValueError` a NumPy shape mismatch on assignment or
Python's `max()` applied to an empty sequence. -/
inductive ModelError where
  | InvalidModel
  | InvalidModifier
  | InvalidNameReuse
  | AssertionError
  | KeyError
  | ValueError
deriving DecidableEq, Repr

/-- A modifier implementation class from the external `pyhf.modifiers`
registry.  Modelled from the spec: the modifier collaborator exposes
`n_parameters`, `suggested_init`, `suggested_bounds`, `is_shared`,
`is_constrained`, `pdf_type`, `alphas` and auxiliary data; an instance is
constructed from the sample's nominal data and the modifier-definition data
(`modifier_cls(sample['data'], modifier_def['data'])` in
`_ModelConfig.add_or_get_modifier`).  `clsName` is the Python class name
(`type(modifier).__name__`). -/
structure ModifierClass where
  clsName : String
  is_shared : Bool
  is_constrained : Bool
  n_parameters : List ℚ → List ℚ → Nat
  suggested_init : List ℚ → List ℚ → List ℚ
  suggested_bounds : List ℚ → List ℚ → List (ℚ × ℚ)
  auxdata : List ℚ → List ℚ → List ℚ
  alphas : List ℚ → List ℚ → List ℚ → List ℚ
  pdf_type : String

/-- A modifier instance: a modifier class applied to the constructor
arguments `sample['data']` (nominal) and `modifier_def['data']` (mdata).
Attribute access on the instance falls through to the class, as in Python.
The source's `modifier.add_sample(...)` mutates only combiner-facing
internals of the external modifier object and is not modelled. -/
structure ModifierInstance where
  cls : ModifierClass
  nominal : List ℚ
  mdata : List ℚ

def ModifierInstance.n_parameters (m : ModifierInstance) : Nat :=
  m.cls.n_parameters m.nominal m.mdata

def ModifierInstance.suggested_init (m : ModifierInstance) : List ℚ :=
  m.cls.suggested_init m.nominal m.mdata

def ModifierInstance.suggested_bounds (m : ModifierInstance) : List (ℚ × ℚ) :=
  m.cls.suggested_bounds m.nominal m.mdata

def ModifierInstance.auxdata (m : ModifierInstance) : List ℚ :=
  m.cls.auxdata m.nominal m.mdata

def ModifierInstance.alphas (m : ModifierInstance) (pars : List ℚ) : List ℚ :=
  m.cls.alphas m.nominal m.mdata pars

/-- One entry of a sample's `modifiers` list: `{name, type, data}`. -/
structure ModifierDef where
  name : String
  mtype : String
  data : List ℚ
deriving DecidableEq

/-- One sample of a channel: `{name, data, modifiers}`. -/
structure Sample where
  name : String
  data : List ℚ
  modifiers : List ModifierDef
deriving DecidableEq

/-- One channel of the specification: `{name, samples}`. -/
structure Channel where
  name : String
  samples : List Sample
deriving DecidableEq

/-- The declarative specification: `{channels: [...]}`. -/
structure PyhfSpec where
  channels : List Channel
deriving DecidableEq

/-- A value of the `par_map` dictionary: `{'slice': sl, 'modifier': modifier}`.
The slice is the half-open range `[sl.1, sl.2)` into the global parameter
vector. -/
structure ParMapEntry where
  sl : Nat × Nat
  modifier : ModifierInstance

/-- The `_ModelConfig` bookkeeping state (src/pyhf/pdf.py, `__init__` plus the
fields `channels`/`samples`/`modifiers` set by `from_spec`).  `par_map` is a
Python dict modelled as an association list where the most recent binding of a
key is found first. -/
structure Config where
  poi_index : Option Nat
  par_map : List (String × ParMapEntry)
  par_order : List String
  auxdata : List ℚ
  auxdata_order : List String
  next_index : Nat
  channels : List String
  samples : List String
  modifiers : List String

/-- The freshly initialised `_ModelConfig()`. -/
def initConfig : Config :=
  { poi_index := none, par_map := [], par_order := [], auxdata := []
    auxdata_order := [], next_index := 0, channels := [], samples := []
    modifiers := [] }

/-- Python dictionary lookup on an association list (first binding wins;
insertions prepend, so the newest binding shadows older ones). -/
def plookup {α : Type} (k : String) : List (String × α) → Option α
  | [] => none
  | (a, b) :: t => if k = a then some b else plookup k t

/-- The external modifier registry `pyhf.modifiers.registry`: type tag →
modifier class.  Modelled from the spec: a registration table mapping
type-tag to constructor. -/
abbrev Registry : Type := List (String × ModifierClass)

/-- `_ModelConfig.add_or_get_modifier` (src/pyhf/pdf.py lines 75-119).
Looks the declared type up in the registry (`InvalidModifier` if absent); if
the class is shared and the name is already in `par_map`, returns the
existing instance after checking the type (`InvalidNameReuse` on mismatch);
otherwise creates a fresh instance, allocates the slice
`[next_index, next_index + n_parameters)`, appends to `par_order` and, if the
modifier is constrained, appends its auxiliary data and name. -/
def add_or_get_modifier (registry : Registry) (cfg : Config) (sampleData : List ℚ)
    (md : ModifierDef) : Except ModelError (Config × ModifierInstance) :=
  match plookup md.mtype registry with
  | none => .error .InvalidModifier
  | some modifier_cls =>
    match (if modifier_cls.is_shared then plookup md.name cfg.par_map else none) with
    | some entry =>
      if entry.modifier.cls.clsName = md.mtype then .ok (cfg, entry.modifier)
      else .error .InvalidNameReuse
    | none =>
      let modifier : ModifierInstance := ⟨modifier_cls, sampleData, md.data⟩
      let npars := modifier.n_parameters
      let sl := (cfg.next_index, cfg.next_index + npars)
      let cfg' : Config := { cfg with
        next_index := cfg.next_index + npars
        par_order := cfg.par_order ++ [md.name]
        par_map := (md.name, ⟨sl, modifier⟩) :: cfg.par_map
        auxdata :=
          if modifier_cls.is_constrained then cfg.auxdata ++ modifier.auxdata
          else cfg.auxdata
        auxdata_order :=
          if modifier_cls.is_constrained then cfg.auxdata_order ++ [md.name]
          else cfg.auxdata_order }
      .ok (cfg', modifier)

/-- `_ModelConfig.suggested_init`: concatenates, in `par_order`, each
modifier's suggested initial values.  A missing `par_map` key would raise in
Python; that case is unreachable for configurations produced by `from_spec`
and contributes `[]` here. -/
def Config.suggestedInit (cfg : Config) : List ℚ :=
  cfg.par_order.foldl
    (fun init name =>
      init ++ (match plookup name cfg.par_map with
               | some e => e.modifier.suggested_init
               | none => []))
    []

/-- `_ModelConfig.suggested_bounds`: concatenates, in `par_order`, each
modifier's suggested bounds. -/
def Config.suggestedBounds (cfg : Config) : List (ℚ × ℚ) :=
  cfg.par_order.foldl
    (fun bounds name =>
      bounds ++ (match plookup name cfg.par_map with
                 | some e => e.modifier.suggested_bounds
                 | none => []))
    []

/-- `_ModelConfig.set_poi` (src/pyhf/pdf.py lines 68-73): raises
`InvalidModel` when the name is not a declared modifier, then asserts that
the slice has width exactly 1 (a failing Python `assert` raises
`AssertionError`) and records `poi_index` as the slice start. -/
def set_poi (cfg : Config) (name : String) : Except ModelError Config :=
  if name ∈ cfg.modifiers then
    match plookup name cfg.par_map with
    | some e =>
      if e.sl.2 - e.sl.1 = 1 then .ok { cfg with poi_index := some e.sl.1 }
      else .error .AssertionError
    | none => .error .KeyError
  else .error .InvalidModel

/-- Short-circuiting fold: the Python `for` loop over a list where the body
may raise. -/
def foldE {σ α : Type} (f : σ → α → Except ModelError σ) : σ → List α → Except ModelError σ
  | s, [] => .ok s
  | s, a :: t =>
    match f s a with
    | .error e => .error e
    | .ok s' => foldE f s' t

/-- The loop state of `_ModelConfig.from_spec`: the config instance under
construction, the (possibly rewritten) POI name, and the accumulating
`channels` / `samples` / `modifiers` name lists. -/
structure FromSpecState where
  cfg : Config
  poiname : String
  channels : List String
  samples : List String
  modifiers : List String

/-- Processing of one `modifier_def` in `from_spec`'s inner loop: optional
`qualify_names` rewriting to `"{type}/{name}"` (rewriting the POI name when it
matches), then `add_or_get_modifier`, then recording the (rewritten) name.
The source also calls `modifier.add_sample(...)` (external mutation of the
modifier object) and fills `sample['modifiers_by_type']` (unused by the
embedded core). -/
def processModifierDef (registry : Registry) (qualify_names : Bool)
    (sampleData : List ℚ) (st : FromSpecState) (md0 : ModifierDef) :
    Except ModelError FromSpecState :=
  let fullname := md0.mtype ++ "/" ++ md0.name
  let poiname := if qualify_names ∧ md0.name = st.poiname then fullname else st.poiname
  let md := if qualify_names then { md0 with name := fullname } else md0
  match add_or_get_modifier registry st.cfg sampleData md with
  | .error e => .error e
  | .ok (cfg', _) =>
    .ok { st with cfg := cfg', poiname := poiname,
                  modifiers := st.modifiers ++ [md.name] }

/-- Processing of one sample in `from_spec`: record the sample name, then
process its modifier definitions in order. -/
def processSample (registry : Registry) (qualify_names : Bool)
    (st : FromSpecState) (s : Sample) : Except ModelError FromSpecState :=
  foldE (processModifierDef registry qualify_names s.data)
    { st with samples := st.samples ++ [s.name] } s.modifiers

/-- Processing of one channel in `from_spec`: record the channel name, then
process its samples in order. -/
def processChannel (registry : Registry) (qualify_names : Bool)
    (st : FromSpecState) (c : Channel) : Except ModelError FromSpecState :=
  foldE (processSample registry qualify_names)
    { st with channels := st.channels ++ [c.name] } c.samples

/-- The walk over all channels/samples/modifier-defs of `from_spec`. -/
def processSpec (registry : Registry) (qualify_names : Bool) (poiname : String)
    (spec : PyhfSpec) : Except ModelError FromSpecState :=
  foldE (processChannel registry qualify_names)
    { cfg := initConfig, poiname := poiname, channels := [], samples := []
      modifiers := [] } spec.channels

/-- The configuration after `from_spec`'s walk sets the deduplicated
`channels`/`samples`/`modifiers` name lists (`list(set(...))` in Python; only
membership in them is ever used). -/
def dedupedConfig (st : FromSpecState) : Config :=
  { st.cfg with channels := st.channels.dedup, samples := st.samples.dedup,
                modifiers := st.modifiers.dedup }

/-- `_ModelConfig.from_spec` (src/pyhf/pdf.py lines 12-39): walk the spec in
declaration order, set the deduplicated name lists, and finally `set_poi`
with the (possibly rewritten) POI name. -/
def from_spec (registry : Registry) (spec : PyhfSpec) (poiname : String)
    (qualify_names : Bool) : Except ModelError Config :=
  match processSpec registry qualify_names poiname spec with
  | .error e => .error e
  | .ok st => set_poi (dedupedConfig st) st.poiname

/-- Python `max(...)` over a generator of naturals: raises `ValueError` on an
empty sequence. -/
def maxOf (l : List Nat) : Except ModelError Nat :=
  match l with
  | [] => .error .ValueError
  | _ => .ok (l.foldl max 0)

/-- The all-NaN initial cube `np.ones((nchan, maxsamp, maxbins)) * np.nan`.
A `none` entry is the NaN sentinel. -/
def emptyCube : Nat → Nat → Nat → Option ℚ := fun _ _ _ => none

/-- NumPy row assignment `cube[i, j, :] = row`. -/
def cubeWriteRow (cube : Nat → Nat → Nat → Option ℚ) (i j : Nat)
    (row : Nat → Option ℚ) : Nat → Nat → Nat → Option ℚ :=
  fun a b c => if a = i ∧ b = j then row c else cube a b c

/-- The row written by `cube[i, j, :] = s['data']`: NumPy accepts the
assignment only when the data length equals `maxbins`, or equals 1 (scalar
broadcast across the whole row); any other length raises `ValueError`
("could not broadcast input array"). -/
def rowOf (maxbins : Nat) (d : List ℚ) : Except ModelError (Nat → Option ℚ) :=
  if d.length = maxbins then .ok (fun b => d[b]?)
  else if d.length = 1 then .ok (fun b => if b < maxbins then d.head? else none)
  else .error .ValueError

/-- The body of `_make_cube`'s inner loop: `cube[i, j, :] = s['data']` for
the sample with index `js.1` of the channel with index `i`. -/
def stepSample (maxbins i : Nat) (cube : Nat → Nat → Nat → Option ℚ)
    (js : Nat × Sample) : Except ModelError (Nat → Nat → Nat → Option ℚ) :=
  match rowOf maxbins js.2.data with
  | .error e => .error e
  | .ok row => .ok (cubeWriteRow cube i js.1 row)

/-- The body of `_make_cube`'s outer loop: assign all sample rows of the
channel with index `ic.1`. -/
def stepChannel (maxbins : Nat) (cube : Nat → Nat → Nat → Option ℚ)
    (ic : Nat × Channel) : Except ModelError (Nat → Nat → Nat → Option ℚ) :=
  foldE (stepSample maxbins ic.1) cube ic.2.samples.enum

/-- `Model._make_cube` (src/pyhf/pdf.py lines 144-157): dimensions
`(nchan, maxsamp, maxbins)` from the spec maxima, NaN-initialised cube,
row assignment `cube[i, j, :] = s['data']` for every (channel i, sample j).
The returned `histomap` (`self.hm`) is bookkeeping unused by the embedded
core and is not modelled. -/
def make_cube (spec : PyhfSpec) :
    Except ModelError (Nat × Nat × Nat × (Nat → Nat → Nat → Option ℚ)) :=
  let nchan := spec.channels.length
  match maxOf (spec.channels.map (fun c => c.samples.length)) with
  | .error e => .error e
  | .ok maxsamp =>
    match maxOf ((spec.channels.map (fun c => c.samples.map (fun s => s.data.length))).flatten) with
    | .error e => .error e
    | .ok maxbins =>
      match foldE (stepChannel maxbins) emptyCube spec.channels.enum with
      | .error e => .error e
      | .ok cube => .ok (nchan, maxsamp, maxbins, cube)

/-- One entry of the `result_index` list consumed by
`Model._all_modifications`: the target index `(opcode, modId, chan, samp)`
into the stacked `op_fields` array, and the per-bin contribution row written
there.  Modelled from the spec: the combiner strategies
(`CombinedInterpolator` / `TrivialCombined`, aggregated by
`Model._make_result_index`) return, per modifier name, a list of
(slot-index, per-bin contribution) pairs; opcode 0 is the multiplicative
"factor" kind and opcode 1 the additive "delta" kind. -/
structure ResultEntry where
  opcode : Nat
  modId : Nat
  chan : Nat
  samp : Nat
  contrib : Nat → ℚ

/-- The initial stacked `op_fields` array of `_all_modifications`:
`np.stack([np.ones((nmods,) + cube.shape), np.zeros((nmods,) + cube.shape)])`
— ones in the factor plane (opcode 0), zeros in the delta plane (opcode 1). -/
def initOpField : Nat → Nat → Nat → Nat → Nat → ℚ :=
  fun op _ _ _ _ => if op = 0 then 1 else 0

/-- The assignment `op_fields[total] = r` for one `result_index` entry. -/
def writeResult (f : Nat → Nat → Nat → Nat → Nat → ℚ) (r : ResultEntry) :
    Nat → Nat → Nat → Nat → Nat → ℚ :=
  fun op m c s b =>
    if op = r.opcode ∧ m = r.modId ∧ c = r.chan ∧ s = r.samp then r.contrib b
    else f op m c s b

/-- The `op_fields` array after all `result_index` assignments. -/
def opFields (results : List ResultEntry) : Nat → Nat → Nat → Nat → Nat → ℚ :=
  results.foldl writeResult initOpField

/-- `factor_field = np.product(op_fields[0], axis=0)`: the product over the
modifier axis of the factor plane. -/
def factor_field (nmods : Nat) (results : List ResultEntry) (c s b : Nat) : ℚ :=
  ((List.range nmods).map (fun m => opFields results 0 m c s b)).prod

/-- `delta_field = np.sum(op_fields[1], axis=0)`: the sum over the modifier
axis of the delta plane. -/
def delta_field (nmods : Nat) (results : List ResultEntry) (c s b : Nat) : ℚ :=
  ((List.range nmods).map (fun m => opFields results 1 m c s b)).sum

/-- `Model._all_modifications` (src/pyhf/pdf.py lines 194-208): builds the
stacked `op_fields`, overwrites modifier planes from `result_index`, and
reduces to the factor field (product) and delta field (sum). -/
def all_modifications (nres : Nat × List ResultEntry) :
    (Nat → Nat → Nat → ℚ) × (Nat → Nat → Nat → ℚ) :=
  (factor_field nres.1 nres.2, delta_field nres.1 nres.2)

/-- The callargs triple `[thisauxdata, modalphas, sigma-or-[]]` accumulated by
`Model.constraint_logpdf`. -/
structure CallArgs where
  aux : List ℚ
  alph : List ℚ
  sigma : List ℚ

/-- `bytype.setdefault(pdf_type, []).append(callargs)`: append to the group of
key `k`, creating the group at the end if absent (Python dicts keep insertion
order). -/
def bytypeAppend (bytype : List (String × List CallArgs)) (k : String)
    (c : CallArgs) : List (String × List CallArgs) :=
  match bytype with
  | [] => [(k, [c])]
  | (a, l) :: t => if a = k then (a, l ++ [c]) :: t else (a, l) :: bytypeAppend t k c

/-- The numeric collaborators consumed from the tensor backend by the model:
`log`, the Poisson density, and the batched constraint-density evaluation of
`Model.__calculate_constraint` (density lookup by `pdf_type` string, applied
elementwise over a group's stacked callargs, then `log` and `sum`; one
collaborator call per density family). -/
structure BackendFns where
  log : ℚ → ℚ
  poisson : ℚ → ℚ → ℚ
  groupLogDensity : String → List CallArgs → ℚ

/-- `Model.__calculate_constraint` (src/pyhf/pdf.py lines 247-256): each
density family's batched log-density contributions are computed and the
concatenation is summed; the grand total is the sum over the groups. -/
def calculate_constraint (backend : BackendFns)
    (bytype : List (String × List CallArgs)) : ℚ :=
  (bytype.map (fun kv => backend.groupLogDensity kv.1 kv.2)).sum

/-- Python slicing `pars[slice(a, b)]`. -/
def sliceList (l : List ℚ) (sl : Nat × Nat) : List ℚ :=
  (l.drop sl.1).take (sl.2 - sl.1)

/-- The `Model` object: the (deep-copied) spec, the `_ModelConfig`, the cube
and its dimensions, plus the external collaborators: `results` stands for
`_make_result_index` (combiner outputs, modelled from the spec: parameter
vector → modifier count and slot contributions), `finalized_stats` for the
backend-computed per-staterror constraint widths (`finalize_stats`, which
uses the backend's `sqrt`), and `backend` for the numeric primitives. -/
structure ModelEmb where
  spec : PyhfSpec
  config : Config
  nchan : Nat
  maxsamp : Nat
  maxbins : Nat
  cube : Nat → Nat → Nat → Option ℚ
  results : List ℚ → Nat × List ResultEntry
  finalized_stats : String → List ℚ
  backend : BackendFns

/-- `Model.expected_actualdata` (src/pyhf/pdf.py lines 225-234): computes
`combined = factor_field * (delta_field + cube)` (NaN propagates through both
operations: a padded cube slot yields a NaN combined slot) and returns, for
each channel `i` of the spec, `np.sum(combined[i][~np.isnan(combined[i])])`
— the sum of the non-NaN entries of that channel's plane. -/
def expected_actualdata (M : ModelEmb) (pars : List ℚ) : List ℚ :=
  let fields := all_modifications (M.results pars)
  (List.range M.spec.channels.length).map (fun i =>
    ((List.range M.maxsamp).map (fun s =>
      ((List.range M.maxbins).map (fun b =>
        (((M.cube i s b).map
          (fun v => fields.1 i s b * (fields.2 i s b + v))).getD 0))).sum)).sum)

/-- `Model.constraint_logpdf` (src/pyhf/pdf.py lines 258-278): walks
`auxdata_order`, slicing the auxiliary observation vector by each modifier's
`alphas` length, attaching the constraint width (unit width for
histosys/normsys, `finalized_stats` for staterror; the source leaves `kwargs`
stale for any other normal-family class — modelled as the empty width), and
groups the callargs by density family before the batched evaluation. -/
def constraint_logpdf (M : ModelEmb) (auxd : List ℚ) (pars : List ℚ) : ℚ :=
  let step := fun (st : Nat × List (String × List CallArgs)) (cname : String) =>
    match plookup cname M.config.par_map with
    | none => st
    | some entry =>
      let modifier := entry.modifier
      let modalphas := modifier.alphas (sliceList pars entry.sl)
      let endIndex := st.1 + modalphas.length
      let thisauxdata := (auxd.drop st.1).take (endIndex - st.1)
      let sigma :=
        if modifier.cls.pdf_type = "normal" then
          if modifier.cls.clsName = "histosys" ∨ modifier.cls.clsName = "normsys" then
            [(1 : ℚ)]
          else if modifier.cls.clsName = "staterror" then M.finalized_stats cname
          else []
        else []
      (endIndex, bytypeAppend st.2 modifier.cls.pdf_type ⟨thisauxdata, modalphas, sigma⟩)
  let final := M.config.auxdata_order.foldl step (0, [])
  calculate_constraint M.backend final.2

/-- `Model.logpdf` (src/pyhf/pdf.py lines 280-289): splits `data` at
`cut = len(data) - len(config.auxdata)` into actual and auxiliary
observations, sums the elementwise `log(poisson(actual, expected_actualdata))`
and adds the constraint log-density; the scalar result is returned as a
length-1 tensor (`astensor(result) * ones((1,))`). -/
def logpdf (M : ModelEmb) (pars data : List ℚ) : List ℚ :=
  let cut : Nat := data.length - M.config.auxdata.length
  let actual_data := data.take cut
  let aux_data := data.drop cut
  let lambdas_data := expected_actualdata M pars
  let summands := List.zipWith (fun d lam => M.backend.log (M.backend.poisson d lam))
    actual_data lambdas_data
  [summands.sum + constraint_logpdf M aux_data pars]

/-- `Model.__init__` (src/pyhf/pdf.py lines 128-142): schema validation is
external; the config is built by `_ModelConfig.from_spec` and the cube by
`_make_cube`; combiner instances and `finalized_stats` are the external
collaborators bundled into `ModelEmb`. -/
def mkModel (registry : Registry) (spec : PyhfSpec) (poiname : String)
    (qualify_names : Bool) (results : List ℚ → Nat × List ResultEntry)
    (fstats : String → List ℚ) (backend : BackendFns) :
    Except ModelError ModelEmb :=
  match from_spec registry spec poiname qualify_names with
  | .error e => .error e
  | .ok cfg =>
    match make_cube spec with
    | .error e => .error e
    | .ok r => .ok ⟨spec, cfg, r.1, r.2.1, r.2.2.1, r.2.2.2, results, fstats, backend⟩

/-- TensorFlow scalar-plus-matrix broadcast: `hessian + 1e-10` adds the
scalar to EVERY entry of the matrix. -/
def matAddScalar (m : List (List ℚ)) (c : ℚ) : List (List ℚ) :=
  m.map (fun row => row.map (fun x => x + c))

/-- `tf.transpose(tf.matmul(invhess, tf.transpose(tf.stack([gradient]))))[0]`:
the matrix-vector product. -/
def matVec (m : List (List ℚ)) (v : List ℚ) : List ℚ :=
  m.map (fun row => (List.zipWith (fun a b => a * b) row v).sum)

/-- Elementwise `best_fit - up`. -/
def listSub (x y : List ℚ) : List ℚ := List.zipWith (fun a b => a - b) x y

/-- `np.max(up)`: the maximum entry of the array (for a nonempty list; NumPy
raises on an empty one, here the fold degenerates to 0). -/
def listMax (l : List ℚ) : ℚ := l.foldl max (l.headD 0)

/-- The convergence tolerance `1e-4` of the Newton loops. -/
def tol : ℚ := 1 / 10000

/-- The Hessian regularizer `1e-10` of the Newton loops. -/
def epsreg : ℚ := 1 / 10000000000

/-- The Newton loop shared by `unconstrained_bestfit` and
`constrained_bestfit` (src/pyhf/optimize/opt_tflow.py lines 27-33 and 64-70):
`for i in range(fuel): up = update(best); best = best - up;
 if np.abs(np.max(up)) < 1e-4: break`.
Returns the final iterate, the number of iterations executed, and whether the
`break` was taken.  NOTE: the break condition is the absolute value of the
MAXIMUM entry of `up`, not the maximum absolute entry.  The source's
`InvalidArgumentError` handler (backend-raised numeric failures: log and
continue) is outside the embedded numeric model. -/
def newtonLoopAux (update : List ℚ → List ℚ) :
    Nat → List ℚ → List ℚ × Nat × Bool
  | 0, best => (best, 0, false)
  | fuel + 1, best =>
    let up := update best
    let best' := listSub best up
    if |listMax up| < tol then (best', 1, true)
    else
      let r := newtonLoopAux update fuel best'
      (r.1, r.2.1 + 1, r.2.2)

/-- The sequence of Newton iterates: `iterSeq update init j` is the value of
`best_fit` after `j` updates have been applied. -/
def iterSeq (update : List ℚ → List ℚ) (init : List ℚ) : Nat → List ℚ
  | 0 => init
  | j + 1 => listSub (iterSeq update init j) (update (iterSeq update init j))

/-- The autodiff/linear-algebra collaborators of the optimizer:
`tf.gradients` / `tf.hessians` of a held differentiable scalar expression with
respect to the fed variable vector, and `tf.linalg.inv`. -/
structure TFBackend where
  gradients : (List ℚ → ℚ) → List ℚ → List ℚ
  hessians : (List ℚ → ℚ) → List ℚ → List (List ℚ)
  inv : List (List ℚ) → List (List ℚ)

/-- The Newton update graph of both fits:
`update = inv(hessian + 1e-10) @ gradient`, where the scalar `1e-10` is
broadcast over EVERY entry of the Hessian. -/
def newtonUpdate (tb : TFBackend) (f : List ℚ → ℚ) (x : List ℚ) : List ℚ :=
  matVec (tb.inv (matAddScalar (tb.hessians f x) epsreg)) (tb.gradients f x)

/-- `tflow_optimizer.unconstrained_bestfit` (src/pyhf/optimize/opt_tflow.py
lines 12-46): builds the objective graph over the full parameter vector
(`objective(pars, data, pdf)`; `data` and the pdf are closed over), forms the
Newton update from its gradient and regularized Hessian, and runs the loop
from `init_pars`.  `par_bounds` is accepted and never used. -/
def unconstrained_bestfit (tb : TFBackend) (objective : List ℚ → List ℚ → ℚ)
    (data : List ℚ) (init_pars : List ℚ) (par_bounds : List (ℚ × ℚ)) : List ℚ :=
  let _ := par_bounds
  let f := fun pars => objective pars data
  (newtonLoopAux (newtonUpdate tb f) 1000 init_pars).1

/-- The full parameter vector bound into the constrained objective:
`pars = concatenate([nuis_cat[:0], poi_par, nuis_cat[0:]])`
(src/pyhf/optimize/opt_tflow.py line 56). -/
def constrainedParsOf (constrained_mu : ℚ) (nuis : List ℚ) : List ℚ :=
  (nuis.take 0) ++ [constrained_mu] ++ (nuis.drop 0)

/-- Python `list.insert(i, x)`: `l[:i] + [x] + l[i:]` (the index clamps to the
end when it exceeds the length). -/
def pyInsert (l : List ℚ) (i : Nat) (x : ℚ) : List ℚ :=
  l.take i ++ [x] ++ l.drop i

/-- `tflow_optimizer.constrained_bestfit` (src/pyhf/optimize/opt_tflow.py
lines 48-85): drops the POI entry from `init_pars`, binds the objective to
`constrainedParsOf constrained_mu nuis`, differentiates with respect to the
nuisance vector only, runs the same Newton loop, and finally re-inserts the
fixed POI value at `pdf.config.poi_index`. -/
def constrained_bestfit (tb : TFBackend) (objective : List ℚ → List ℚ → ℚ)
    (constrained_mu : ℚ) (data : List ℚ) (poi_index : Nat)
    (init_pars : List ℚ) (par_bounds : List (ℚ × ℚ)) : List ℚ :=
  let _ := par_bounds
  let f := fun nuis => objective (constrainedParsOf constrained_mu nuis) data
  let best_fit_nuis := (init_pars.enum.filter (fun ip => ip.1 ≠ poi_index)).map (fun ip => ip.2)
  let best := (newtonLoopAux (newtonUpdate tb f) 1000 best_fit_nuis).1
  pyInsert best poi_index constrained_mu

/-! ### Specification-side definitions

The following definitions restate quantities in the way the natural-language
specification phrases them; the theorems below compare them with the
source-translated definitions above. -/

/-- The last `result_index` entry written onto `op_fields[op, m, c, s]`
(NumPy assignment semantics: the final write wins). -/
def lastContrib (results : List ResultEntry) (op m c s : Nat) : Option ResultEntry :=
  results.reverse.find?
    (fun r => r.opcode == op && r.modId == m && r.chan == c && r.samp == s)

/-- The factor-opcode contribution of modifier `m` at slot `(c, s)`, bin `b`:
its written contribution, or the identity 1 where the slot is unaffected. -/
def slotFactor (results : List ResultEntry) (m c s b : Nat) : ℚ :=
  match lastContrib results 0 m c s with
  | some r => r.contrib b
  | none => 1

/-- The delta-opcode contribution of modifier `m` at slot `(c, s)`, bin `b`:
its written contribution, or the identity 0 where the slot is unaffected. -/
def slotDelta (results : List ResultEntry) (m c s b : Nat) : ℚ :=
  match lastContrib results 1 m c s with
  | some r => r.contrib b
  | none => 0

/-- Spec-side factor field: the elementwise product of all factor-opcode
modifier contributions. -/
def factorFieldClaim (n : Nat) (results : List ResultEntry) (c s b : Nat) : ℚ :=
  ((List.range n).map (fun m => slotFactor results m c s b)).prod

/-- Spec-side delta field: the elementwise sum of all delta-opcode modifier
contributions. -/
def deltaFieldClaim (n : Nat) (results : List ResultEntry) (c s b : Nat) : ℚ :=
  ((List.range n).map (fun m => slotDelta results m c s b)).sum

/-- Spec-side expected actual data: for each channel, the sum over all
non-NaN (sample-slot, bin) positions of
`factor_field × (delta_field + nominal cube)`. -/
def expectedClaim (M : ModelEmb) (pars : List ℚ) : List ℚ :=
  let nres := M.results pars
  (List.range M.spec.channels.length).map (fun i =>
    ((List.range M.maxsamp).map (fun s =>
      ((List.range M.maxbins).map (fun b =>
        match M.cube i s b with
        | some v =>
          factorFieldClaim nres.1 nres.2 i s b * (deltaFieldClaim nres.1 nres.2 i s b + v)
        | none => 0)).sum)).sum)

/-- The per-channel sums of the unmodified nominal cube (padded slots
contribute nothing). -/
def nominalChannelSums (M : ModelEmb) : List ℚ :=
  (List.range M.spec.channels.length).map (fun i =>
    ((List.range M.maxsamp).map (fun s =>
      ((List.range M.maxbins).map (fun b => (M.cube i s b).getD 0)).sum)).sum)

/-- Width of a half-open parameter slice. -/
def sliceWidth (sl : Nat × Nat) : Nat := sl.2 - sl.1

/-- The parameter slices of a configuration, in `par_order`. -/
def parSlices (cfg : Config) : List (Nat × Nat) :=
  cfg.par_order.map (fun n =>
    match plookup n cfg.par_map with
    | some e => e.sl
    | none => (0, 0))

/-- The parameter counts of the registered modifier instances, in
`par_order`. -/
def parNParams (cfg : Config) : List Nat :=
  cfg.par_order.map (fun n =>
    match plookup n cfg.par_map with
    | some e => e.modifier.n_parameters
    | none => 0)

/-- The total constrained-parameter count: the sum of the parameter counts of
the constrained modifiers, in `auxdata_order`. -/
def constrainedParCount (cfg : Config) : Nat :=
  (cfg.auxdata_order.map (fun n =>
    match plookup n cfg.par_map with
    | some e => e.modifier.n_parameters
    | none => 0)).sum

/-- `Contig a slices b`: the slices form consecutive half-open ranges
starting at `a` and ending at `b` (each slice starts where the previous one
ended). -/
def Contig : Nat → List (Nat × Nat) → Nat → Prop
  | n, [], m => n = m
  | n, sl :: t, m => sl.1 = n ∧ n ≤ sl.2 ∧ Contig sl.2 t m

/-- Interface contract of a registered modifier class.  Modelled from the
spec: the registry is keyed by the class name, a modifier exposes as many
suggested initial values and bounds as it has parameters, and a constrained
modifier's auxiliary data has one entry per parameter. -/
def ClassWF (name : String) (cls : ModifierClass) : Prop :=
  cls.clsName = name ∧
  ∀ nom mdata,
    (cls.suggested_init nom mdata).length = cls.n_parameters nom mdata ∧
    (cls.suggested_bounds nom mdata).length = cls.n_parameters nom mdata ∧
    (cls.is_constrained = true →
      (cls.auxdata nom mdata).length = cls.n_parameters nom mdata)

/-- Every class of the registry satisfies the modifier interface contract. -/
def RegistryWF (registry : Registry) : Prop :=
  ∀ p ∈ registry, ClassWF p.1 p.2

/-- Well-formedness of one `par_map` entry: the slice width is the instance's
parameter count, and the instance obeys the modifier interface contract. -/
def EntryWF (e : ParMapEntry) : Prop :=
  e.sl.2 = e.sl.1 + e.modifier.n_parameters ∧
  e.modifier.suggested_init.length = e.modifier.n_parameters ∧
  e.modifier.suggested_bounds.length = e.modifier.n_parameters ∧
  (e.modifier.cls.is_constrained = true →
    e.modifier.auxdata.length = e.modifier.n_parameters)

/-- The bookkeeping invariant maintained by `_ModelConfig` construction. -/
structure ConfigInv (cfg : Config) : Prop where
  entries : ∀ p ∈ cfg.par_map, EntryWF p.2
  order_keys : ∀ n ∈ cfg.par_order, (plookup n cfg.par_map).isSome
  aux_sub : cfg.auxdata_order.Sublist cfg.par_order
  alloc : cfg.par_order.Nodup →
    Contig 0 (parSlices cfg) cfg.next_index ∧
    cfg.auxdata.length = constrainedParCount cfg

/-- Spec-side diagonal regularization: add the scalar only on the diagonal of
the matrix (what "a diagonal regularizer added to the Hessian" means). -/
def addDiagReg (m : List (List ℚ)) (c : ℚ) : List (List ℚ) :=
  m.enum.map (fun ir => ir.2.enum.map (fun jc => if jc.1 = ir.1 then jc.2 + c else jc.2))

/-- Spec-side convergence measure: the maximum absolute component of the
update vector. -/
def maxAbsList (l : List ℚ) : ℚ := (l.map (fun x => |x|)).foldl max 0

/-- Closed form of the cube built by `_make_cube` on a spec whose samples all
have the full bin count. -/
def cubeResult (spec : PyhfSpec) : Nat × Nat × Nat × (Nat → Nat → Nat → Option ℚ) :=
  match make_cube spec with
  | .ok r => r
  | .error _ => (0, 0, 0, emptyCube)

/-! ### Concrete instances used by witnesses and counterexamples -/

/-- A concrete `normfactor`-style modifier class: shared, unconstrained, one
parameter. -/
def normfactorCls : ModifierClass :=
  { clsName := "normfactor", is_shared := true, is_constrained := false,
    n_parameters := fun _ _ => 1, suggested_init := fun _ _ => [1],
    suggested_bounds := fun _ _ => [(0, 10)], auxdata := fun _ _ => [],
    alphas := fun _ _ ps => ps, pdf_type := "normal" }

/-- A concrete `histosys`-style modifier class: shared, constrained, one
parameter, unit-width normal constraint. -/
def histosysCls : ModifierClass :=
  { clsName := "histosys", is_shared := true, is_constrained := true,
    n_parameters := fun _ _ => 1, suggested_init := fun _ _ => [0],
    suggested_bounds := fun _ _ => [(-5, 5)], auxdata := fun _ _ => [0],
    alphas := fun _ _ ps => ps, pdf_type := "normal" }

/-- A concrete two-parameter shared constrained class (a `staterror`-style
modifier over two bins), used to exhibit a multi-parameter POI. -/
def staterror2Cls : ModifierClass :=
  { clsName := "staterror2", is_shared := true, is_constrained := true,
    n_parameters := fun _ _ => 2, suggested_init := fun _ _ => [1, 1],
    suggested_bounds := fun _ _ => [(0, 10), (0, 10)],
    auxdata := fun _ _ => [1, 1], alphas := fun _ _ ps => ps,
    pdf_type := "normal" }

/-- A concrete registry holding the three classes above. -/
def reg0 : Registry :=
  [("normfactor", normfactorCls), ("histosys", histosysCls),
   ("staterror2", staterror2Cls)]

/-- A concrete one-channel specification: signal sample with a `mu`
normfactor, background sample with a `bkgsys` histosys. -/
def spec0 : PyhfSpec :=
  ⟨[⟨"singlechannel",
     [⟨"signal", [12, 11], [⟨"mu", "normfactor", []⟩]⟩,
      ⟨"background", [50, 52], [⟨"bkgsys", "histosys", [0]⟩]⟩]⟩]⟩

/-- A specification with unequal bin counts across channels (3 bins and 2
bins), driving `_make_cube` into the broadcast-error case. -/
def specBad : PyhfSpec :=
  ⟨[⟨"chanA", [⟨"a1", [1, 2, 3], []⟩]⟩,
    ⟨"chanB", [⟨"b1", [4, 5], []⟩]⟩]⟩

/-- The configuration produced from `spec0` (construction succeeds). -/
def cfg0 : Config :=
  match from_spec reg0 spec0 "mu" false with
  | .ok c => c
  | .error _ => initConfig

/-- A trivial combiner-output collaborator for the concrete model: modifier 0
is a factor modifier contributing identity 1 everywhere, modifier 1 a delta
modifier contributing identity 0 everywhere. -/
def resultsId : List ℚ → Nat × List ResultEntry :=
  fun _ => (2, [⟨0, 0, 0, 0, fun _ => 1⟩, ⟨1, 1, 0, 1, fun _ => 0⟩])

/-- A concrete numeric backend (the claims under test never inspect these
collaborator values). -/
def backend0 : BackendFns :=
  { log := fun x => x, poisson := fun n lam => n + lam,
    groupLogDensity := fun _ _ => 0 }

/-- The concrete model built from `reg0`/`spec0` (construction succeeds). -/
def M0 : ModelEmb :=
  match mkModel reg0 spec0 "mu" false resultsId (fun _ => []) backend0 with
  | .ok M => M
  | .error _ => ⟨spec0, initConfig, 0, 0, 0, emptyCube, resultsId, fun _ => [], backend0⟩

/-- The loop state reached when processing `spec0` with a POI name that no
modifier declares. -/
def st5 : FromSpecState :=
  match processSpec reg0 false "nonexistent" spec0 with
  | .ok s => s
  | .error _ => ⟨initConfig, "", [], [], []⟩

/-- A specification whose only modifier is a two-parameter `staterror2`. -/
def spec5b : PyhfSpec :=
  ⟨[⟨"singlechannel", [⟨"background", [50, 52], [⟨"uncert", "staterror2", [3, 7]⟩]⟩]⟩]⟩

/-- The loop state reached when processing `spec5b`. -/
def st5b : FromSpecState :=
  match processSpec reg0 false "uncert" spec5b with
  | .ok s => s
  | .error _ => ⟨initConfig, "", [], [], []⟩

/-- The `par_map` entry allocated for the `uncert` modifier of `spec5b`: a
two-wide slice. -/
def entry5b : ParMapEntry := ⟨(0, 2), ⟨staterror2Cls, [50, 52], [3, 7]⟩⟩

/-- The configuration after registering the `mu` normfactor once. -/
def cfgA : Config :=
  match add_or_get_modifier reg0 initConfig [12, 11] ⟨"mu", "normfactor", []⟩ with
  | .ok p => p.1
  | .error _ => initConfig

/-- The `par_map` entry of `mu` inside `cfgA`. -/
def entryA : ParMapEntry := ⟨(0, 1), ⟨normfactorCls, [12, 11], []⟩⟩

/-- Exact inverse of a 2×2 matrix (the concrete stand-in for the backend's
`tf.linalg.inv` in counterexamples; other shapes are returned unchanged). -/
def inv2x2 (m : List (List ℚ)) : List (List ℚ) :=
  match m with
  | [[a11, a12], [a21, a22]] =>
    let det := a11 * a22 - a12 * a21
    [[a22 / det, -a12 / det], [-a21 / det, a11 / det]]
  | _ => m

/-- A concrete gradient collaborator chosen so that the first Newton update
is exactly `[-1, 0]`. -/
def cGrad : List ℚ → List ℚ := fun _ => [-(1 + epsreg), -epsreg]

/-- A concrete Hessian collaborator: the identity matrix. -/
def cHess : List ℚ → List (List ℚ) := fun _ => [[1, 0], [0, 1]]

/-- The concrete optimizer backend built from the above. -/
def ctb : TFBackend :=
  { gradients := fun _ x => cGrad x, hessians := fun _ x => cHess x, inv := inv2x2 }

/-- A concrete objective (its value is irrelevant: the concrete backend
ignores the held expression). -/
def cObjective : List ℚ → List ℚ → ℚ := fun _ _ => 0

/-! ### Proofs: the Newton optimizer -/

theorem iterSeq_shift (update : List ℚ → List ℚ) (init : List ℚ) (j : Nat) :
    iterSeq update (listSub init (update init)) j = iterSeq update init (j + 1) := by
  induction j with
  | zero => rfl
  | succ j ih => simp only [iterSeq, ih]

theorem newtonLoop_spec (update : List ℚ → List ℚ) :
    ∀ (fuel : Nat) (init : List ℚ),
      (newtonLoopAux update fuel init).2.1 ≤ fuel ∧
      (newtonLoopAux update fuel init).1 =
        iterSeq update init (newtonLoopAux update fuel init).2.1 ∧
      ((newtonLoopAux update fuel init).2.2 = true ↔
        ∃ j, j < fuel ∧ |listMax (update (iterSeq update init j))| < tol) ∧
      (∀ j, j + 1 < (newtonLoopAux update fuel init).2.1 →
        ¬ |listMax (update (iterSeq update init j))| < tol) ∧
      ((newtonLoopAux update fuel init).2.2 = true →
        1 ≤ (newtonLoopAux update fuel init).2.1 ∧
        |listMax (update (iterSeq update init
          ((newtonLoopAux update fuel init).2.1 - 1)))| < tol) ∧
      ((newtonLoopAux update fuel init).2.2 = false →
        (newtonLoopAux update fuel init).2.1 = fuel) := by
  intro fuel
  induction fuel with
  | zero =>
    intro init
    have h21 : (newtonLoopAux update 0 init).2.1 = 0 := rfl
    have h22 : (newtonLoopAux update 0 init).2.2 = false := rfl
    refine ⟨Nat.le_refl 0, rfl, ?_, ?_, ?_, fun _ => rfl⟩
    · rw [h22]
      exact ⟨fun h => absurd h (by simp), fun ⟨j, hj, _⟩ => absurd hj (by omega)⟩
    · intro j hj; rw [h21] at hj; omega
    · intro h; rw [h22] at h; cases h
  | succ fuel ih =>
    intro init
    by_cases hc : |listMax (update init)| < tol
    · have hred : newtonLoopAux update (fuel + 1) init =
          (listSub init (update init), 1, true) := by
        simp [newtonLoopAux, hc]
      have h21 : (newtonLoopAux update (fuel + 1) init).2.1 = 1 := by rw [hred]
      have h22 : (newtonLoopAux update (fuel + 1) init).2.2 = true := by rw [hred]
      have h11 : (newtonLoopAux update (fuel + 1) init).1 = listSub init (update init) := by
        rw [hred]
      refine ⟨by omega, ?_, ?_, ?_, ?_, ?_⟩
      · rw [h11, h21]; rfl
      · rw [h22]; exact ⟨fun _ => ⟨0, by omega, hc⟩, fun _ => rfl⟩
      · intro j hj; rw [h21] at hj; omega
      · intro _; rw [h21]; exact ⟨Nat.le_refl 1, hc⟩
      · intro hf; rw [h22] at hf; cases hf
    · have hred : newtonLoopAux update (fuel + 1) init =
          ((newtonLoopAux update fuel (listSub init (update init))).1,
           (newtonLoopAux update fuel (listSub init (update init))).2.1 + 1,
           (newtonLoopAux update fuel (listSub init (update init))).2.2) := by
        simp [newtonLoopAux, hc]
      have h21 : (newtonLoopAux update (fuel + 1) init).2.1 =
          (newtonLoopAux update fuel (listSub init (update init))).2.1 + 1 := by rw [hred]
      have h22 : (newtonLoopAux update (fuel + 1) init).2.2 =
          (newtonLoopAux update fuel (listSub init (update init))).2.2 := by rw [hred]
      have h11 : (newtonLoopAux update (fuel + 1) init).1 =
          (newtonLoopAux update fuel (listSub init (update init))).1 := by rw [hred]
      obtain ⟨i1, i2, i3, i4, i5, i6⟩ := ih (listSub init (update init))
      refine ⟨by omega, ?_, ?_, ?_, ?_, ?_⟩
      · rw [h11, i2, h21, iterSeq_shift]
      · rw [h22]
        constructor
        · intro hf
          obtain ⟨j, hj, hcond⟩ := i3.mp hf
          rw [iterSeq_shift] at hcond
          exact ⟨j + 1, by omega, hcond⟩
        · rintro ⟨j, hj, hcond⟩
          rcases j with _ | j'
          · exact absurd hcond hc
          · rw [← iterSeq_shift] at hcond
            exact i3.mpr ⟨j', by omega, hcond⟩
      · intro j hj
        rw [h21] at hj
        rcases j with _ | j'
        · exact hc
        · rw [← iterSeq_shift]
          exact i4 j' (by omega)
      · intro hf
        rw [h22] at hf
        obtain ⟨hone, hcond⟩ := i5 hf
        rw [h21]
        refine ⟨by omega, ?_⟩
        rw [iterSeq_shift] at hcond
        have harith : (newtonLoopAux update fuel (listSub init (update init))).2.1 - 1 + 1 =
            (newtonLoopAux update fuel (listSub init (update init))).2.1 + 1 - 1 := by omega
        rw [harith] at hcond
        exact hcond
      · intro hf
        rw [h22] at hf
        rw [h21, i6 hf]

/-- State of the C3 counterexample: the update the concrete fit computes. -/
def cUpdate : List ℚ → List ℚ := newtonUpdate ctb (fun p => cObjective p [])

/-- The pyhf_C3 claim is false on the code: the concrete fit
`unconstrained_bestfit ctb cObjective [] [0, 0] []` breaks out of its Newton
loop after a single iteration (of the 1000 available), yet the maximum
absolute component of that iteration's update `Δ = [-1, 0]` is 1, far above
the tolerance 1e-4 — the loop tests `|np.max(Δ)| = |0| < 1e-4`, not
`max |Δ| < 1e-4`.  Moreover the regularizer is added to every entry of the
Hessian, not only to its diagonal. -/
theorem newtonLoopAux_break (update : List ℚ → List ℚ) (fuel : Nat) (best : List ℚ)
    (hf : 0 < fuel) (hc : |listMax (update best)| < tol) :
    newtonLoopAux update fuel best = (listSub best (update best), 1, true) := by
  cases fuel with
  | zero => omega
  | succ n => simp [newtonLoopAux, hc]

theorem ctbUpdate_eval : ∀ (f : List ℚ → ℚ) (x : List ℚ), newtonUpdate ctb f x = [-1, 0] := by
  intro f x
  show matVec (inv2x2 (matAddScalar (cHess x) epsreg)) (cGrad x) = [-1, 0]
  rw [show cHess x = [[1, 0], [0, 1]] from rfl, show cGrad x = [-(1 + epsreg), -epsreg] from rfl]
  rw [show matAddScalar [[1, 0], [0, 1]] epsreg =
    [[1 + epsreg, 0 + epsreg], [0 + epsreg, 1 + epsreg]] from rfl]
  rw [show (0 : ℚ) + epsreg = epsreg by ring]
  rw [show inv2x2 [[1 + epsreg, epsreg], [epsreg, 1 + epsreg]] =
    [[(1 + epsreg) / ((1 + epsreg) * (1 + epsreg) - epsreg * epsreg),
      -epsreg / ((1 + epsreg) * (1 + epsreg) - epsreg * epsreg)],
     [-epsreg / ((1 + epsreg) * (1 + epsreg) - epsreg * epsreg),
      (1 + epsreg) / ((1 + epsreg) * (1 + epsreg) - epsreg * epsreg)]] from rfl]
  show [(1 + epsreg) / ((1 + epsreg) * (1 + epsreg) - epsreg * epsreg) * -(1 + epsreg) +
          (-epsreg / ((1 + epsreg) * (1 + epsreg) - epsreg * epsreg) * -epsreg + 0),
        -epsreg / ((1 + epsreg) * (1 + epsreg) - epsreg * epsreg) * -(1 + epsreg) +
          ((1 + epsreg) / ((1 + epsreg) * (1 + epsreg) - epsreg * epsreg) * -epsreg + 0)] =
      [-1, 0]
  have hd : (1 + epsreg) * (1 + epsreg) - epsreg * epsreg ≠ 0 := by
    rw [show (1 + epsreg) * (1 + epsreg) - epsreg * epsreg = 1 + 2 * epsreg by ring]
    norm_num [epsreg]
  have e1 : (1 + epsreg) / ((1 + epsreg) * (1 + epsreg) - epsreg * epsreg) * -(1 + epsreg) +
      (-epsreg / ((1 + epsreg) * (1 + epsreg) - epsreg * epsreg) * -epsreg + 0) = -1 := by
    field_simp
    ring
  have e2 : -epsreg / ((1 + epsreg) * (1 + epsreg) - epsreg * epsreg) * -(1 + epsreg) +
      ((1 + epsreg) / ((1 + epsreg) * (1 + epsreg) - epsreg * epsreg) * -epsreg + 0) = 0 := by
    field_simp
    ring
  rw [e1, e2]

/-- The pyhf_C3 claim is false on the code: the concrete fit
`unconstrained_bestfit ctb cObjective [] [0, 0] []` breaks out of its Newton
loop after a single iteration (of the 1000 available), yet the maximum
absolute component of that iteration's update `Δ = [-1, 0]` is 1, far above
the tolerance 1e-4 — the loop tests `|np.max(Δ)| = |0| < 1e-4`, not
`max |Δ| < 1e-4`.  Moreover the regularizer is added to every entry of the
Hessian, not only to its diagonal. -/
theorem pyhf_C3_counterexample :
    unconstrained_bestfit ctb cObjective [] [0, 0] [] = [1, 0] ∧
    cUpdate [0, 0] = [-1, 0] ∧
    (newtonLoopAux cUpdate 1000 [0, 0]).2 = (1, true) ∧
    ¬ maxAbsList (cUpdate [0, 0]) < tol ∧
    matAddScalar [[1, 0], [0, 1]] epsreg ≠ addDiagReg [[1, 0], [0, 1]] epsreg := by
  have hup : cUpdate [0, 0] = [-1, 0] := ctbUpdate_eval _ [0, 0]
  have hcond : |listMax (cUpdate [0, 0])| < tol := by
    rw [hup]
    show |listMax [-1, 0]| < tol
    norm_num [listMax, tol]
  have hloop : newtonLoopAux cUpdate 1000 [0, 0] = (listSub [0, 0] (cUpdate [0, 0]), 1, true) :=
    newtonLoopAux_break cUpdate 1000 [0, 0] (by omega) hcond
  refine ⟨?_, hup, ?_, ?_, ?_⟩
  · show (newtonLoopAux cUpdate 1000 [0, 0]).1 = [1, 0]
    rw [hloop, hup]
    show [(0 : ℚ) - -1, (0 : ℚ) - 0] = [1, 0]
    norm_num
  · rw [hloop]
  · rw [hup]
    show ¬ maxAbsList [-1, 0] < tol
    norm_num [maxAbsList, tol]
  · intro h
    have h01 : (0 : ℚ) + epsreg = 0 := by
      have := congrArg (fun l => ((l.headD []).getD 1 0)) h
      simpa [matAddScalar, addDiagReg, List.enum] using this
    norm_num [epsreg] at h01

/-- pyhf_C3 (amended): for every fit call (both `unconstrained_bestfit` and
`constrained_bestfit` run this loop on their respective update graph), the
Newton loop performs at most 1000 iterations of `pars ← pars − Δ` with
`Δ = (H + 1e-10 added to every entry)⁻¹ g`, and it breaks out early exactly
when the absolute value of the MAXIMUM COMPONENT of the update `Δ` falls
below the tolerance 1e-4 (the terminating update having been applied). -/
theorem pyhf_C3 (update : List ℚ → List ℚ) (init : List ℚ)
    (r : List ℚ × Nat × Bool) (hr : r = newtonLoopAux update 1000 init) :
    r.2.1 ≤ 1000 ∧
    r.1 = iterSeq update init r.2.1 ∧
    (r.2.2 = true ↔ ∃ j, j < 1000 ∧ |listMax (update (iterSeq update init j))| < tol) ∧
    (∀ j, j + 1 < r.2.1 → ¬ |listMax (update (iterSeq update init j))| < tol) ∧
    (r.2.2 = true → |listMax (update (iterSeq update init (r.2.1 - 1)))| < tol) ∧
    (r.2.2 = false → r.2.1 = 1000) ∧
    (∀ (tb : TFBackend) (obj : List ℚ → List ℚ → ℚ) (data : List ℚ)
       (bounds : List (ℚ × ℚ)),
      unconstrained_bestfit tb obj data init bounds =
        (newtonLoopAux (newtonUpdate tb (fun p => obj p data)) 1000 init).1) ∧
    (∀ (tb : TFBackend) (obj : List ℚ → List ℚ → ℚ) (mu : ℚ) (data : List ℚ)
       (poi : Nat) (bounds : List (ℚ × ℚ)),
      constrained_bestfit tb obj mu data poi init bounds =
        pyInsert (newtonLoopAux
          (newtonUpdate tb (fun v => obj (constrainedParsOf mu v) data)) 1000
          ((init.enum.filter (fun ip => ip.1 ≠ poi)).map (fun ip => ip.2))).1 poi mu) := by
  subst hr
  obtain ⟨a1, a2, a3, a4, a5, a6⟩ := newtonLoop_spec update 1000 init
  exact ⟨a1, a2, a3, a4, fun h => (a5 h).2, a6,
    fun _ _ _ _ => rfl, fun _ _ _ _ _ _ => rfl⟩

theorem pyhf_C3_witness :
    (newtonLoopAux (fun _ => ([0] : List ℚ)) 1000 [5]).2.1 ≤ 1000 :=
  (pyhf_C3 (fun _ => ([0] : List ℚ)) [5] _ rfl).1

/-- pyhf_C4: `constrained_bestfit` evaluates the objective only at parameter
vectors with the POI pinned to the given value (two objectives agreeing on
those vectors give identical fits — the gradient and Hessian are taken with
respect to the nuisance sub-vector only), and the returned vector is the
fitted nuisance vector with the fixed POI value inserted at the model's
`poi_index`, the nuisance entries keeping their original order around it. -/
theorem pyhf_C4 (tb : TFBackend) (obj1 obj2 : List ℚ → List ℚ → ℚ) (mu : ℚ)
    (data : List ℚ) (poi : Nat) (init : List ℚ) (bounds : List (ℚ × ℚ))
    (nuisFit : List ℚ)
    (hobj : ∀ v, obj1 (constrainedParsOf mu v) data = obj2 (constrainedParsOf mu v) data)
    (hfit : nuisFit = (newtonLoopAux
      (newtonUpdate tb (fun v => obj1 (constrainedParsOf mu v) data)) 1000
      ((init.enum.filter (fun ip => ip.1 ≠ poi)).map (fun ip => ip.2))).1)
    (hp : poi ≤ nuisFit.length) :
    constrained_bestfit tb obj1 mu data poi init bounds =
      constrained_bestfit tb obj2 mu data poi init bounds ∧
    constrained_bestfit tb obj1 mu data poi init bounds = pyInsert nuisFit poi mu ∧
    (constrained_bestfit tb obj1 mu data poi init bounds)[poi]? = some mu ∧
    (constrained_bestfit tb obj1 mu data poi init bounds).take poi = nuisFit.take poi ∧
    (constrained_bestfit tb obj1 mu data poi init bounds).drop (poi + 1) = nuisFit.drop poi := by
  have hfun : (fun v => obj1 (constrainedParsOf mu v) data) =
      (fun v => obj2 (constrainedParsOf mu v) data) := funext hobj
  have h2 : constrained_bestfit tb obj1 mu data poi init bounds = pyInsert nuisFit poi mu := by
    rw [hfit]; rfl
  have hlen : (nuisFit.take poi).length = poi := by
    rw [List.length_take]; omega
  refine ⟨?_, h2, ?_, ?_, ?_⟩
  · show pyInsert (newtonLoopAux
        (newtonUpdate tb (fun v => obj1 (constrainedParsOf mu v) data)) 1000
        ((init.enum.filter (fun ip => ip.1 ≠ poi)).map (fun ip => ip.2))).1 poi mu =
      pyInsert (newtonLoopAux
        (newtonUpdate tb (fun v => obj2 (constrainedParsOf mu v) data)) 1000
        ((init.enum.filter (fun ip => ip.1 ≠ poi)).map (fun ip => ip.2))).1 poi mu
    rw [hfun]
  · rw [h2]
    show (nuisFit.take poi ++ [mu] ++ nuisFit.drop poi)[poi]? = some mu
    rw [List.getElem?_append_left (by rw [List.length_append, hlen]; simp),
      List.getElem?_append_right (by omega), hlen]
    simp
  · rw [h2]
    show (nuisFit.take poi ++ [mu] ++ nuisFit.drop poi).take poi = nuisFit.take poi
    rw [List.append_assoc, List.take_append_eq_append_take, hlen]
    simp
  · rw [h2]
    show (nuisFit.take poi ++ [mu] ++ nuisFit.drop poi).drop (poi + 1) = nuisFit.drop poi
    rw [List.drop_append_eq_append_drop]
    have hl2 : (nuisFit.take poi ++ [mu]).length = poi + 1 := by
      rw [List.length_append, hlen]; rfl
    rw [hl2]
    simp

theorem pyhf_C4_witness :
    (constrained_bestfit ctb cObjective 2 [] 0 [5, 7] [])[0]? = some 2 := by
  have hcond : |listMax (newtonUpdate ctb
      (fun v => cObjective (constrainedParsOf 2 v) []) [7])| < tol := by
    rw [ctbUpdate_eval]
    show |listMax [-1, 0]| < tol
    norm_num [listMax, tol]
  have hstate : ((([5, 7] : List ℚ).enum.filter (fun ip => ip.1 ≠ 0)).map (fun ip => ip.2)) =
      [7] := by
    simp [List.enum]
  have hfit : ([8] : List ℚ) = (newtonLoopAux
      (newtonUpdate ctb (fun v => cObjective (constrainedParsOf 2 v) [])) 1000
      ((([5, 7] : List ℚ).enum.filter (fun ip => ip.1 ≠ 0)).map (fun ip => ip.2))).1 := by
    rw [hstate, newtonLoopAux_break _ _ _ (by omega) hcond]
    show ([8] : List ℚ) = listSub [7] (newtonUpdate ctb
      (fun v => cObjective (constrainedParsOf 2 v) []) [7])
    rw [ctbUpdate_eval]
    show ([8] : List ℚ) = [7 - -1]
    norm_num
  exact (pyhf_C4 ctb cObjective cObjective 2 [] 0 [5, 7] [] [8]
    (fun _ => rfl) hfit (by norm_num)).2.2.1

/-- pyhf_C10: the parameter vector bound into the constrained objective is
the fixed POI value concatenated IN FRONT of the whole nuisance sub-vector
(`[nuis[:0], [mu], nuis[0:]] = mu :: nuis`), so the POI occupies position 0
for every model regardless of `poi_index`; only the final returned list
re-inserts the POI at `poi_index`. -/
theorem pyhf_C10 (mu : ℚ) (nuis : List ℚ) (tb : TFBackend)
    (obj : List ℚ → List ℚ → ℚ) (data : List ℚ) (poi : Nat) (init : List ℚ)
    (bounds : List (ℚ × ℚ)) :
    constrainedParsOf mu nuis = mu :: nuis ∧
    (constrainedParsOf mu nuis)[0]? = some mu ∧
    constrained_bestfit tb obj mu data poi init bounds =
      pyInsert (newtonLoopAux (newtonUpdate tb (fun v => obj (mu :: v) data)) 1000
        ((init.enum.filter (fun ip => ip.1 ≠ poi)).map (fun ip => ip.2))).1 poi mu := by
  have hpars : ∀ v : List ℚ, constrainedParsOf mu v = mu :: v := by
    intro v
    show v.take 0 ++ [mu] ++ v.drop 0 = mu :: v
    simp
  have hfun : (fun v => obj (constrainedParsOf mu v) data) =
      (fun v => obj (mu :: v) data) := funext (fun v => by rw [hpars v])
  refine ⟨hpars nuis, by rw [hpars]; simp, ?_⟩
  show pyInsert (newtonLoopAux
      (newtonUpdate tb (fun v => obj (constrainedParsOf mu v) data)) 1000
      ((init.enum.filter (fun ip => ip.1 ≠ poi)).map (fun ip => ip.2))).1 poi mu = _
  rw [hfun]

/-! ### Proofs: modifier combination and expected actual data -/

theorem foldl_writeResult (results : List ResultEntry)
    (f : Nat → Nat → Nat → Nat → Nat → ℚ) (op m c s b : Nat) :
    (results.foldl writeResult f) op m c s b =
      match results.reverse.find?
        (fun r => r.opcode == op && r.modId == m && r.chan == c && r.samp == s) with
      | some r => r.contrib b
      | none => f op m c s b := by
  induction results generalizing f with
  | nil => rfl
  | cons a t ih =>
    rw [List.foldl_cons, ih (writeResult f a), List.reverse_cons, List.find?_append]
    cases hfind : t.reverse.find?
        (fun r => r.opcode == op && r.modId == m && r.chan == c && r.samp == s) with
    | some r => simp
    | none =>
      simp only [Option.none_or]
      cases hpa : (a.opcode == op && a.modId == m && a.chan == c && a.samp == s) with
      | true =>
        have hcond : op = a.opcode ∧ m = a.modId ∧ c = a.chan ∧ s = a.samp := by
          simp only [Bool.and_eq_true, beq_iff_eq] at hpa
          exact ⟨hpa.1.1.1.symm, hpa.1.1.2.symm, hpa.1.2.symm, hpa.2.symm⟩
        rw [List.find?_cons_of_pos _ (by exact hpa)]
        simp [writeResult, hcond.1, hcond.2.1, hcond.2.2.1, hcond.2.2.2]
      | false =>
        have hcond : ¬(op = a.opcode ∧ m = a.modId ∧ c = a.chan ∧ s = a.samp) := by
          rintro ⟨h1, h2, h3, h4⟩
          simp [← h1, ← h2, ← h3, ← h4] at hpa
        rw [List.find?_cons_of_neg _ (by simp [hpa])]
        simp [writeResult, hcond]

theorem opFields_eq (results : List ResultEntry) (op m c s b : Nat) :
    opFields results op m c s b =
      match lastContrib results op m c s with
      | some r => r.contrib b
      | none => initOpField op m c s b :=
  foldl_writeResult results initOpField op m c s b

theorem factor_field_eq_claim (n : Nat) (results : List ResultEntry) (c s b : Nat) :
    factor_field n results c s b = factorFieldClaim n results c s b := by
  unfold factor_field factorFieldClaim
  congr 1
  apply List.map_congr_left
  intro m _
  rw [show opFields results 0 m c s b = _ from opFields_eq results 0 m c s b]
  unfold slotFactor
  cases h : lastContrib results 0 m c s with
  | some r => rfl
  | none => rfl

theorem delta_field_eq_claim (n : Nat) (results : List ResultEntry) (c s b : Nat) :
    delta_field n results c s b = deltaFieldClaim n results c s b := by
  unfold delta_field deltaFieldClaim
  congr 1
  apply List.map_congr_left
  intro m _
  rw [show opFields results 1 m c s b = _ from opFields_eq results 1 m c s b]
  unfold slotDelta
  cases h : lastContrib results 1 m c s with
  | some r => rfl
  | none => rfl

/-- pyhf_C1: `expected_actualdata(pars)` has exactly one entry per channel,
each entry being the sum over the non-NaN (sample-slot, bin) positions of the
channel of `factor_field × (delta_field + nominal cube)`, where the factor
field is the elementwise product of all factor-opcode (opcode 0) modifier
contributions (identity 1 on unaffected slots, last write winning) and the
delta field the elementwise sum of all delta-opcode (opcode 1) contributions
(identity 0 on unaffected slots). -/
theorem pyhf_C1 (M : ModelEmb) (pars : List ℚ)
    (_hmod : ∀ r ∈ (M.results pars).2, r.modId < (M.results pars).1) :
    (expected_actualdata M pars).length = M.spec.channels.length ∧
    expected_actualdata M pars = expectedClaim M pars := by
  constructor
  · simp [expected_actualdata]
  · simp only [expected_actualdata, expectedClaim]
    apply List.map_congr_left
    intro i _
    congr 1
    apply List.map_congr_left
    intro s _
    congr 1
    apply List.map_congr_left
    intro b _
    rw [show (all_modifications (M.results pars)).1 i s b =
        factorFieldClaim (M.results pars).1 (M.results pars).2 i s b from
      factor_field_eq_claim _ _ i s b]
    rw [show (all_modifications (M.results pars)).2 i s b =
        deltaFieldClaim (M.results pars).1 (M.results pars).2 i s b from
      delta_field_eq_claim _ _ i s b]
    cases M.cube i s b with
    | some v => rfl
    | none => rfl

theorem pyhf_C1_witness :
    expected_actualdata M0 [1, 0] = expectedClaim M0 [1, 0] := by
  have hres : M0.results = resultsId := rfl
  refine (pyhf_C1 M0 [1, 0] ?_).2
  rw [hres]
  intro r hr
  simp only [resultsId, List.mem_cons, List.not_mem_nil, or_false] at hr
  rcases hr with rfl | rfl
  · decide
  · decide

/-- pyhf_C9: when every factor-kind contribution is the identity 1 and every
delta-kind contribution the identity 0 (the nominal/identity parameter
point), `expected_actualdata` returns exactly the per-channel sums of the
unmodified nominal cube. -/
theorem pyhf_C9 (M : ModelEmb) (pars : List ℚ)
    (hid : ∀ r ∈ (M.results pars).2,
      (r.opcode = 0 → ∀ b, r.contrib b = 1) ∧ (r.opcode = 1 → ∀ b, r.contrib b = 0)) :
    expected_actualdata M pars = nominalChannelSums M := by
  simp only [expected_actualdata, nominalChannelSums]
  apply List.map_congr_left
  intro i _
  congr 1
  apply List.map_congr_left
  intro s _
  congr 1
  apply List.map_congr_left
  intro b _
  have hfac : (all_modifications (M.results pars)).1 i s b = 1 := by
    show factor_field (M.results pars).1 (M.results pars).2 i s b = 1
    unfold factor_field
    apply List.prod_eq_one
    intro x hx
    obtain ⟨m, _, hm⟩ := List.mem_map.mp hx
    rw [← hm, opFields_eq]
    cases h : lastContrib (M.results pars).2 0 m i s with
    | some r =>
      have hp := List.find?_some h
      have hmem := List.mem_reverse.mp (List.mem_of_find?_eq_some h)
      have hop : r.opcode = 0 := by
        simp only [Bool.and_eq_true, beq_iff_eq] at hp
        exact hp.1.1.1
      exact (hid r hmem).1 hop b
    | none => rfl
  have hdel : (all_modifications (M.results pars)).2 i s b = 0 := by
    show delta_field (M.results pars).1 (M.results pars).2 i s b = 0
    unfold delta_field
    apply List.sum_eq_zero
    intro x hx
    obtain ⟨m, _, hm⟩ := List.mem_map.mp hx
    rw [← hm, opFields_eq]
    cases h : lastContrib (M.results pars).2 1 m i s with
    | some r =>
      have hp := List.find?_some h
      have hmem := List.mem_reverse.mp (List.mem_of_find?_eq_some h)
      have hop : r.opcode = 1 := by
        simp only [Bool.and_eq_true, beq_iff_eq] at hp
        exact hp.1.1.1
      exact (hid r hmem).2 hop b
    | none => rfl
  rw [hfac, hdel]
  cases M.cube i s b with
  | some v => simp
  | none => rfl

theorem pyhf_C9_witness :
    expected_actualdata M0 [1, 0] = nominalChannelSums M0 := by
  have hres : M0.results = resultsId := rfl
  refine pyhf_C9 M0 [1, 0] ?_
  rw [hres]
  intro r hr
  simp only [resultsId, List.mem_cons, List.not_mem_nil, or_false] at hr
  rcases hr with rfl | rfl
  · constructor
    · intro _ _; rfl
    · intro h; cases h
  · constructor
    · intro h; cases h
    · intro _ _; rfl

/-! ### Proofs: the nominal-yield cube -/

/-- The pyhf_C8 claim is false on the code: for `specBad`, whose second
channel's sample has 2 bins while the global maximum is 3, `_make_cube` does
not build a NaN-padded cube at all — the NumPy row assignment
`cube[i, j, :] = s['data']` fails to broadcast and raises `ValueError`. -/
theorem pyhf_C8_counterexample :
    make_cube specBad = .error .ValueError := rfl

theorem foldl_max_le_init (l : List Nat) : ∀ (a : Nat), a ≤ l.foldl max a := by
  induction l with
  | nil => intro a; exact Nat.le_refl a
  | cons x t ih => intro a; exact Nat.le_trans (Nat.le_max_left a x) (ih (max a x))

theorem mem_le_foldl_max (l : List Nat) : ∀ (a : Nat), ∀ x ∈ l, x ≤ l.foldl max a := by
  induction l with
  | nil => intro a x hx; cases hx
  | cons y t ih =>
    intro a x hx
    rcases List.mem_cons.mp hx with rfl | hx
    · exact Nat.le_trans (Nat.le_max_right a x) (foldl_max_le_init t (max a x))
    · exact ih (max a y) x hx

theorem foldl_max_le_bound (l : List Nat) :
    ∀ (a b : Nat), a ≤ b → (∀ x ∈ l, x ≤ b) → l.foldl max a ≤ b := by
  induction l with
  | nil => intro a b ha _; exact ha
  | cons y t ih =>
    intro a b ha hall
    exact ih (max a y) b (Nat.max_le.mpr ⟨ha, hall y (List.mem_cons_self y t)⟩)
      (fun x hx => hall x (List.mem_cons_of_mem y hx))

theorem foldl_max_const (l : List Nat) (L : Nat) (hne : l ≠ [])
    (hall : ∀ x ∈ l, x = L) : l.foldl max 0 = L := by
  apply Nat.le_antisymm
  · exact foldl_max_le_bound l 0 L (Nat.zero_le L) (fun x hx => Nat.le_of_eq (hall x hx))
  · cases l with
    | nil => exact absurd rfl hne
    | cons y t =>
      have : y = L := hall y (List.mem_cons_self y t)
      exact this ▸ mem_le_foldl_max (y :: t) 0 y (List.mem_cons_self y t)

theorem cubeWriteRow_same (g : Nat → Nat → Nat → Option ℚ) (i k : Nat)
    (row : Nat → Option ℚ) (b : Nat) : cubeWriteRow g i k row i k b = row b := by
  simp [cubeWriteRow]

theorem cubeWriteRow_other (g : Nat → Nat → Nat → Option ℚ) (i k : Nat)
    (row : Nat → Option ℚ) (a j b : Nat) (h : ¬(a = i ∧ j = k)) :
    cubeWriteRow g i k row a j b = g a j b := by
  simp only [cubeWriteRow, if_neg h]

theorem sampFold_eval (maxbins i : Nat) (ss : List Sample) :
    ∀ (k : Nat) (g : Nat → Nat → Nat → Option ℚ),
      (∀ s ∈ ss, s.data.length = maxbins) →
      foldE (stepSample maxbins i) g (ss.enumFrom k) =
        .ok (fun a j b =>
          match (if a = i ∧ k ≤ j then ss[j - k]? else none) with
          | some s => s.data[b]?
          | none => g a j b) := by
  induction ss with
  | nil =>
    intro k g _
    show Except.ok g = _
    congr 1
    funext a j b
    rw [show (if a = i ∧ k ≤ j then ([] : List Sample)[j - k]? else none) = none by
      simp]
  | cons s rest ih =>
    intro k g hlen
    have hs : s.data.length = maxbins := hlen s (List.mem_cons_self s rest)
    have hrow : stepSample maxbins i g (k, s) =
        .ok (cubeWriteRow g i k (fun b => s.data[b]?)) := by
      simp [stepSample, rowOf, hs]
    show foldE (stepSample maxbins i) g ((k, s) :: rest.enumFrom (k + 1)) = _
    rw [show foldE (stepSample maxbins i) g ((k, s) :: rest.enumFrom (k + 1)) =
        foldE (stepSample maxbins i) (cubeWriteRow g i k (fun b => s.data[b]?))
          (rest.enumFrom (k + 1)) by
      simp [foldE, hrow]]
    rw [ih (k + 1) (cubeWriteRow g i k (fun b => s.data[b]?))
      (fun x hx => hlen x (List.mem_cons_of_mem s hx))]
    congr 1
    funext a j b
    by_cases ha : a = i
    · subst ha
      by_cases hj : k ≤ j
      · by_cases hjk : j = k
        · subst hjk
          rw [if_neg (by omega : ¬(a = a ∧ j + 1 ≤ j)),
            if_pos (⟨rfl, Nat.le_refl j⟩ : a = a ∧ j ≤ j),
            (by omega : j - j = 0)]
          rw [show ((s :: rest)[0]? : Option Sample) = some s from List.getElem?_cons_zero]
          exact cubeWriteRow_same g a j (fun b => s.data[b]?) b
        · have hgt : k + 1 ≤ j := by omega
          rw [if_pos (⟨rfl, hgt⟩ : a = a ∧ k + 1 ≤ j),
            if_pos (⟨rfl, hj⟩ : a = a ∧ k ≤ j),
            (by omega : j - k = (j - (k + 1)) + 1), List.getElem?_cons_succ]
          cases hg : rest[j - (k + 1)]? with
          | some s' => rfl
          | none =>
            exact cubeWriteRow_other g a k _ a j b (by
              rintro ⟨_, h⟩; exact hjk h)
      · rw [if_neg (by rintro ⟨_, h⟩; omega : ¬(a = a ∧ k + 1 ≤ j)),
          if_neg (by rintro ⟨_, h⟩; exact hj h : ¬(a = a ∧ k ≤ j))]
        exact cubeWriteRow_other g a k _ a j b (by rintro ⟨_, h⟩; omega)
    · rw [if_neg (by rintro ⟨h, _⟩; exact ha h : ¬(a = i ∧ k + 1 ≤ j)),
        if_neg (by rintro ⟨h, _⟩; exact ha h : ¬(a = i ∧ k ≤ j))]
      exact cubeWriteRow_other g i k _ a j b (by rintro ⟨h, _⟩; exact ha h)

theorem chanFold_eval (maxbins : Nat) (cs : List Channel) :
    ∀ (k : Nat) (g : Nat → Nat → Nat → Option ℚ),
      (∀ c ∈ cs, ∀ s ∈ c.samples, s.data.length = maxbins) →
      foldE (stepChannel maxbins) g (cs.enumFrom k) =
        .ok (fun a j b =>
          match (if k ≤ a then cs[a - k]? else none) with
          | some c =>
            match c.samples[j]? with
            | some s => s.data[b]?
            | none => g a j b
          | none => g a j b) := by
  induction cs with
  | nil =>
    intro k g _
    show Except.ok g = _
    congr 1
    funext a j b
    rw [show (if k ≤ a then ([] : List Channel)[a - k]? else none) = none by simp]
  | cons c rest ih =>
    intro k g hlen
    have hc : ∀ s ∈ c.samples, s.data.length = maxbins := hlen c (List.mem_cons_self c rest)
    have hg1 : stepChannel maxbins g (k, c) =
        .ok (fun a j b =>
          match (if a = k ∧ 0 ≤ j then c.samples[j - 0]? else none) with
          | some s => s.data[b]?
          | none => g a j b) := by
      show foldE (stepSample maxbins k) g c.samples.enum = _
      exact sampFold_eval maxbins k c.samples 0 g hc
    show foldE (stepChannel maxbins) g ((k, c) :: rest.enumFrom (k + 1)) = _
    rw [show foldE (stepChannel maxbins) g ((k, c) :: rest.enumFrom (k + 1)) =
        foldE (stepChannel maxbins) (fun a j b =>
          match (if a = k ∧ 0 ≤ j then c.samples[j - 0]? else none) with
          | some s => s.data[b]?
          | none => g a j b) (rest.enumFrom (k + 1)) by
      simp [foldE, hg1]]
    rw [ih (k + 1) _ (fun x hx => hlen x (List.mem_cons_of_mem c hx))]
    congr 1
    funext a j b
    by_cases hak : a = k
    · subst hak
      rw [if_neg (by omega : ¬(a + 1 ≤ a)), if_pos (Nat.le_refl a),
        (by omega : a - a = 0), List.getElem?_cons_zero]
      show (match (if a = a ∧ 0 ≤ j then c.samples[j - 0]? else none) with
        | some s => s.data[b]? | none => g a j b) = _
      rw [if_pos (⟨rfl, Nat.zero_le j⟩ : a = a ∧ 0 ≤ j), (by omega : j - 0 = j)]
    · by_cases hka : k ≤ a
      · have hgt : k + 1 ≤ a := by omega
        rw [if_pos hgt, if_pos hka, (by omega : a - k = (a - (k + 1)) + 1),
          List.getElem?_cons_succ]
        cases hrest : rest[a - (k + 1)]? with
        | some c' =>
          show (match c'.samples[j]? with
              | some s => s.data[b]?
              | none => (match (if a = k ∧ 0 ≤ j then c.samples[j - 0]? else none) with
                | some s => s.data[b]?
                | none => g a j b)) =
            (match c'.samples[j]? with
              | some s => s.data[b]?
              | none => g a j b)
          cases hcs : c'.samples[j]? with
          | some s' => rfl
          | none =>
            show (match (if a = k ∧ 0 ≤ j then c.samples[j - 0]? else none) with
              | some s => s.data[b]? | none => g a j b) = g a j b
            rw [if_neg (by rintro ⟨h, _⟩; exact hak h)]
        | none =>
          show (match (if a = k ∧ 0 ≤ j then c.samples[j - 0]? else none) with
            | some s => s.data[b]? | none => g a j b) = g a j b
          rw [if_neg (by rintro ⟨h, _⟩; exact hak h)]
      · rw [if_neg (by omega : ¬(k + 1 ≤ a)), if_neg hka]
        show (match (if a = k ∧ 0 ≤ j then c.samples[j - 0]? else none) with
          | some s => s.data[b]? | none => g a j b) = g a j b
        rw [if_neg (by rintro ⟨h, _⟩; exact hak h)]

theorem maxOf_ok (l : List Nat) (hne : l ≠ []) : maxOf l = .ok (l.foldl max 0) := by
  cases l with
  | nil => exact absurd rfl hne
  | cons x t => rfl

theorem make_cube_eval (spec : PyhfSpec) (L : Nat)
    (hne : spec.channels ≠ [])
    (hsne : ∀ c ∈ spec.channels, c.samples ≠ [])
    (hbins : ∀ c ∈ spec.channels, ∀ s ∈ c.samples, s.data.length = L) :
    make_cube spec = .ok (spec.channels.length,
      (spec.channels.map (fun c => c.samples.length)).foldl max 0, L,
      fun a j b =>
        match (if 0 ≤ a then spec.channels[a - 0]? else none) with
        | some c =>
          match c.samples[j]? with
          | some s => s.data[b]?
          | none => emptyCube a j b
        | none => emptyCube a j b) := by
  have h1 : maxOf (spec.channels.map (fun c => c.samples.length)) =
      .ok ((spec.channels.map (fun c => c.samples.length)).foldl max 0) :=
    maxOf_ok _ (by simpa using hne)
  have hflatne :
      (spec.channels.map (fun c => c.samples.map (fun s => s.data.length))).flatten ≠ [] := by
    intro hempty
    rw [List.flatten_eq_nil_iff] at hempty
    cases hch : spec.channels with
    | nil => exact absurd hch hne
    | cons c0 cr =>
      have hmem : c0.samples.map (fun s => s.data.length) ∈
          spec.channels.map (fun c => c.samples.map (fun s => s.data.length)) := by
        rw [hch]
        exact List.mem_map_of_mem _ (List.mem_cons_self c0 cr)
      have := hempty _ hmem
      rw [List.map_eq_nil_iff] at this
      exact hsne c0 (by rw [hch]; exact List.mem_cons_self c0 cr) this
  have hallL : ∀ x ∈ (spec.channels.map (fun c => c.samples.map (fun s => s.data.length))).flatten,
      x = L := by
    intro x hx
    obtain ⟨inner, hinner, hxin⟩ := List.mem_flatten.mp hx
    obtain ⟨c, hcmem, rfl⟩ := List.mem_map.mp hinner
    obtain ⟨s, hsmem, rfl⟩ := List.mem_map.mp hxin
    exact hbins c hcmem s hsmem
  have h2 : maxOf ((spec.channels.map (fun c => c.samples.map (fun s => s.data.length))).flatten) =
      .ok L := by
    rw [maxOf_ok _ hflatne, foldl_max_const _ L hflatne hallL]
  have h3 : foldE (stepChannel L) emptyCube spec.channels.enum =
      .ok (fun a j b =>
        match (if 0 ≤ a then spec.channels[a - 0]? else none) with
        | some c =>
          match c.samples[j]? with
          | some s => s.data[b]?
          | none => emptyCube a j b
        | none => emptyCube a j b) :=
    chanFold_eval L spec.channels 0 emptyCube hbins
  simp only [make_cube, h1, h2, h3]

/-- pyhf_C8 (amended): the cube is a 3-D (nchan, maxsamp, maxbins) tensor; a
channel with fewer samples than the maximum has its missing sample slots
entirely NaN, and those padded slots contribute nothing to any summed result;
but bin padding does not happen: the construction succeeds exactly on
specifications whose samples all carry the full maxbins-bin data (NumPy would
also broadcast a 1-bin sample), and a sample with any other smaller bin count
makes `_make_cube` raise `ValueError` instead of NaN-padding the missing
bins. -/
theorem pyhf_C8_amended (spec : PyhfSpec) (L : Nat)
    (hne : spec.channels ≠ [])
    (hsne : ∀ c ∈ spec.channels, c.samples ≠ [])
    (hbins : ∀ c ∈ spec.channels, ∀ s ∈ c.samples, s.data.length = L) :
    make_cube spec = .ok (cubeResult spec) ∧
    (cubeResult spec).1 = spec.channels.length ∧
    (cubeResult spec).2.2.1 = L ∧
    (∀ a c, spec.channels[a]? = some c → ∀ j s, c.samples[j]? = some s →
      ∀ b, (cubeResult spec).2.2.2 a j b = s.data[b]?) ∧
    (∀ a c, spec.channels[a]? = some c → ∀ j, c.samples.length ≤ j →
      ∀ b, (cubeResult spec).2.2.2 a j b = none) ∧
    (∀ c ∈ spec.channels, c.samples.length ≤ (cubeResult spec).2.1) ∧
    (∀ a c, spec.channels[a]? = some c → ∀ (f g : Nat → Nat → ℚ),
      ((List.range (cubeResult spec).2.1).map (fun s =>
        ((List.range (cubeResult spec).2.2.1).map (fun b =>
          (((cubeResult spec).2.2.2 a s b).map (fun v => f s b * (g s b + v))).getD 0)).sum)).sum =
      ((List.range c.samples.length).map (fun s =>
        ((List.range (cubeResult spec).2.2.1).map (fun b =>
          (((cubeResult spec).2.2.2 a s b).map (fun v => f s b * (g s b + v))).getD 0)).sum)).sum) := by
  have hmc := make_cube_eval spec L hne hsne hbins
  have hcr : cubeResult spec = (spec.channels.length,
      (spec.channels.map (fun c => c.samples.length)).foldl max 0, L,
      fun a j b =>
        match (if 0 ≤ a then spec.channels[a - 0]? else none) with
        | some c =>
          match c.samples[j]? with
          | some s => s.data[b]?
          | none => emptyCube a j b
        | none => emptyCube a j b) := by
    simp only [cubeResult, hmc]
  have hdata : ∀ a c, spec.channels[a]? = some c → ∀ j s, c.samples[j]? = some s →
      ∀ b, (cubeResult spec).2.2.2 a j b = s.data[b]? := by
    intro a c hc j s hs b
    rw [hcr]
    show (match (if 0 ≤ a then spec.channels[a - 0]? else none) with
      | some c =>
        match c.samples[j]? with
        | some s => s.data[b]?
        | none => emptyCube a j b
      | none => emptyCube a j b) = s.data[b]?
    rw [if_pos (Nat.zero_le a), (by omega : a - 0 = a), hc]
    show (match c.samples[j]? with
      | some s => s.data[b]?
      | none => emptyCube a j b) = s.data[b]?
    rw [hs]
  have hpad : ∀ a c, spec.channels[a]? = some c → ∀ j, c.samples.length ≤ j →
      ∀ b, (cubeResult spec).2.2.2 a j b = none := by
    intro a c hc j hj b
    rw [hcr]
    show (match (if 0 ≤ a then spec.channels[a - 0]? else none) with
      | some c =>
        match c.samples[j]? with
        | some s => s.data[b]?
        | none => emptyCube a j b
      | none => emptyCube a j b) = none
    rw [if_pos (Nat.zero_le a), (by omega : a - 0 = a), hc]
    show (match c.samples[j]? with
      | some s => s.data[b]?
      | none => emptyCube a j b) = none
    rw [List.getElem?_eq_none hj]
    rfl
  have hms : ∀ c ∈ spec.channels, c.samples.length ≤ (cubeResult spec).2.1 := by
    intro c hcmem
    rw [hcr]
    exact mem_le_foldl_max _ 0 _ (List.mem_map_of_mem _ hcmem)
  refine ⟨by rw [hmc, hcr], by rw [hcr], by rw [hcr], hdata, hpad, hms, ?_⟩
  intro a c hc f g
  have hcmem : c ∈ spec.channels := List.getElem?_mem hc
  have hle : c.samples.length ≤ (cubeResult spec).2.1 := hms c hcmem
  have hrange : List.range (cubeResult spec).2.1 = List.range c.samples.length ++
      (List.range ((cubeResult spec).2.1 - c.samples.length)).map
        (fun x => c.samples.length + x) := by
    have h := List.range_add c.samples.length ((cubeResult spec).2.1 - c.samples.length)
    rw [(by omega : c.samples.length + ((cubeResult spec).2.1 - c.samples.length) =
      (cubeResult spec).2.1)] at h
    exact h
  rw [hrange, List.map_append, List.sum_append]
  have hzero : (((List.range ((cubeResult spec).2.1 - c.samples.length)).map
      (fun x => c.samples.length + x)).map (fun s =>
        ((List.range (cubeResult spec).2.2.1).map (fun b =>
          (((cubeResult spec).2.2.2 a s b).map
            (fun v => f s b * (g s b + v))).getD 0)).sum)).sum = 0 := by
    apply List.sum_eq_zero
    intro x hx
    obtain ⟨s, hsmem, rfl⟩ := List.mem_map.mp hx
    obtain ⟨t, _, rfl⟩ := List.mem_map.mp hsmem
    apply List.sum_eq_zero
    intro y hy
    obtain ⟨b, _, rfl⟩ := List.mem_map.mp hy
    rw [hpad a c hc _ (by omega)]
    rfl
  rw [hzero, add_zero]

theorem pyhf_C8_amended_witness :
    make_cube spec0 = .ok (cubeResult spec0) ∧ (cubeResult spec0).1 = 1 := by
  have h := pyhf_C8_amended spec0 2 (by simp [spec0])
    (by intro c hc; simp only [spec0, List.mem_cons, List.not_mem_nil, or_false] at hc
        subst hc; simp)
    (by intro c hc s hs
        simp only [spec0, List.mem_cons, List.not_mem_nil, or_false] at hc
        subst hc
        simp only [List.mem_cons, List.not_mem_nil, or_false] at hs
        rcases hs with rfl | rfl <;> rfl)
  exact ⟨h.1, by rw [h.2.1]; rfl⟩

/-! ### Proofs: parameter configuration bookkeeping -/

theorem plookup_mem {α : Type} (k : String) (l : List (String × α)) (v : α)
    (h : plookup k l = some v) : (k, v) ∈ l := by
  induction l with
  | nil => cases h
  | cons p t ih =>
    obtain ⟨a, b⟩ := p
    unfold plookup at h
    by_cases hk : k = a
    · rw [if_pos hk] at h
      injection h with h'
      subst hk
      subst h'
      exact List.mem_cons_self _ _
    · rw [if_neg hk] at h
      exact List.mem_cons_of_mem _ (ih h)

theorem plookup_cons_self {α : Type} (k : String) (e : α) (t : List (String × α)) :
    plookup k ((k, e) :: t) = some e := by
  show (if k = k then some e else plookup k t) = some e
  rw [if_pos rfl]

theorem plookup_cons_ne {α : Type} (k a : String) (e : α) (t : List (String × α))
    (h : k ≠ a) : plookup k ((a, e) :: t) = plookup k t := by
  show (if k = a then some e else plookup k t) = plookup k t
  rw [if_neg h]

theorem contig_append_single (l : List (Nat × Nat)) :
    ∀ (a b c : Nat), Contig a l b → b ≤ c → Contig a (l ++ [(b, c)]) c := by
  induction l with
  | nil =>
    intro a b c h hbc
    have hab : a = b := h
    subst hab
    exact ⟨rfl, hbc, rfl⟩
  | cons sl t ih =>
    intro a b c h hbc
    obtain ⟨h1, h2, h3⟩ := h
    exact ⟨h1, h2, ih _ _ _ h3 hbc⟩

theorem contig_sum (l : List (Nat × Nat)) :
    ∀ (a b : Nat), Contig a l b → b = a + (l.map sliceWidth).sum := by
  induction l with
  | nil =>
    intro a b h
    have hab : a = b := h
    simp [← hab]
  | cons sl t ih =>
    intro a b h
    obtain ⟨h1, h2, h3⟩ := h
    have ht := ih sl.2 b h3
    rw [List.map_cons, List.sum_cons]
    have hw : sliceWidth sl = sl.2 - sl.1 := rfl
    omega

theorem contig_lb (l : List (Nat × Nat)) :
    ∀ (a b : Nat), Contig a l b → ∀ x ∈ l, a ≤ x.1 := by
  induction l with
  | nil => intro a b _ x hx; cases hx
  | cons sl t ih =>
    intro a b h x hx
    obtain ⟨h1, h2, h3⟩ := h
    rcases List.mem_cons.mp hx with rfl | hx
    · omega
    · have := ih sl.2 b h3 x hx
      omega

theorem contig_pairwise (l : List (Nat × Nat)) :
    ∀ (a b : Nat), Contig a l b → l.Pairwise (fun s t => s.2 ≤ t.1) := by
  induction l with
  | nil => intro a b _; exact List.Pairwise.nil
  | cons sl t ih =>
    intro a b h
    obtain ⟨h1, h2, h3⟩ := h
    exact List.Pairwise.cons (fun x hx => contig_lb t sl.2 b h3 x hx) (ih sl.2 b h3)

/-- The three observable behaviours of `add_or_get_modifier`, as equations. -/
theorem add_or_get_noreg (registry : Registry) (cfg : Config) (sd : List ℚ)
    (md : ModifierDef) (hreg : plookup md.mtype registry = none) :
    add_or_get_modifier registry cfg sd md = .error .InvalidModifier := by
  unfold add_or_get_modifier
  rw [hreg]

theorem add_or_get_reuse (registry : Registry) (cfg : Config) (sd : List ℚ)
    (md : ModifierDef) (cls : ModifierClass) (entry : ParMapEntry)
    (hreg : plookup md.mtype registry = some cls)
    (hsh : cls.is_shared = true)
    (hmap : plookup md.name cfg.par_map = some entry)
    (htype : entry.modifier.cls.clsName = md.mtype) :
    add_or_get_modifier registry cfg sd md = .ok (cfg, entry.modifier) := by
  have hite : (if cls.is_shared then plookup md.name cfg.par_map else none) = some entry := by
    rw [hsh]
    simpa using hmap
  unfold add_or_get_modifier
  simp only [hreg, hite]
  rw [if_pos htype]

theorem add_or_get_reuse_err (registry : Registry) (cfg : Config) (sd : List ℚ)
    (md : ModifierDef) (cls : ModifierClass) (entry : ParMapEntry)
    (hreg : plookup md.mtype registry = some cls)
    (hsh : cls.is_shared = true)
    (hmap : plookup md.name cfg.par_map = some entry)
    (htype : entry.modifier.cls.clsName ≠ md.mtype) :
    add_or_get_modifier registry cfg sd md = .error .InvalidNameReuse := by
  have hite : (if cls.is_shared then plookup md.name cfg.par_map else none) = some entry := by
    rw [hsh]
    simpa using hmap
  unfold add_or_get_modifier
  simp only [hreg, hite]
  rw [if_neg htype]

/-- The configuration produced by a fresh allocation. -/
def allocConfig (cfg : Config) (sd : List ℚ) (md : ModifierDef)
    (cls : ModifierClass) : Config :=
  { cfg with
    next_index := cfg.next_index + (ModifierInstance.mk cls sd md.data).n_parameters
    par_order := cfg.par_order ++ [md.name]
    par_map := (md.name, ⟨(cfg.next_index,
      cfg.next_index + (ModifierInstance.mk cls sd md.data).n_parameters),
      ModifierInstance.mk cls sd md.data⟩) :: cfg.par_map
    auxdata :=
      if cls.is_constrained then cfg.auxdata ++ (ModifierInstance.mk cls sd md.data).auxdata
      else cfg.auxdata
    auxdata_order :=
      if cls.is_constrained then cfg.auxdata_order ++ [md.name]
      else cfg.auxdata_order }

theorem add_or_get_alloc (registry : Registry) (cfg : Config) (sd : List ℚ)
    (md : ModifierDef) (cls : ModifierClass)
    (hreg : plookup md.mtype registry = some cls)
    (hif : (if cls.is_shared then plookup md.name cfg.par_map else none) = none) :
    add_or_get_modifier registry cfg sd md =
      .ok (allocConfig cfg sd md cls, ModifierInstance.mk cls sd md.data) := by
  unfold add_or_get_modifier
  simp only [hreg, hif]
  rfl

theorem ite_shared_some (cls : ModifierClass) (cfg : Config) (name : String)
    (entry : ParMapEntry)
    (h : (if cls.is_shared then plookup name cfg.par_map else none) = some entry) :
    cls.is_shared = true ∧ plookup name cfg.par_map = some entry := by
  cases hb : cls.is_shared with
  | false => rw [hb] at h; simp at h
  | true => rw [hb] at h; simp at h; exact ⟨rfl, h⟩

theorem allocConfig_inv (registry : Registry) (hwf : RegistryWF registry)
    (cfg : Config) (sd : List ℚ) (md : ModifierDef) (cls : ModifierClass)
    (hreg : plookup md.mtype registry = some cls)
    (hinv : ConfigInv cfg) : ConfigInv (allocConfig cfg sd md cls) := by
  have hclswf : ClassWF md.mtype cls := hwf _ (plookup_mem _ _ _ hreg)
  have hpm : (allocConfig cfg sd md cls).par_map = (md.name,
      ⟨(cfg.next_index, cfg.next_index + (ModifierInstance.mk cls sd md.data).n_parameters),
       ModifierInstance.mk cls sd md.data⟩) :: cfg.par_map := rfl
  have hpo : (allocConfig cfg sd md cls).par_order = cfg.par_order ++ [md.name] := rfl
  have hni : (allocConfig cfg sd md cls).next_index =
      cfg.next_index + (ModifierInstance.mk cls sd md.data).n_parameters := rfl
  have hado : (allocConfig cfg sd md cls).auxdata_order =
      (if cls.is_constrained then cfg.auxdata_order ++ [md.name]
       else cfg.auxdata_order) := rfl
  have had : (allocConfig cfg sd md cls).auxdata =
      (if cls.is_constrained then
        cfg.auxdata ++ (ModifierInstance.mk cls sd md.data).auxdata
       else cfg.auxdata) := rfl
  constructor
  · intro p hp
    rw [hpm] at hp
    rcases List.mem_cons.mp hp with rfl | hp
    · exact ⟨rfl, (hclswf.2 sd md.data).1, (hclswf.2 sd md.data).2.1,
        fun hc => (hclswf.2 sd md.data).2.2 hc⟩
    · exact hinv.entries p hp
  · intro n hn
    rw [hpo] at hn
    rw [hpm]
    by_cases hne : n = md.name
    · subst hne
      rw [plookup_cons_self]
      rfl
    · rw [plookup_cons_ne _ _ _ _ hne]
      rcases List.mem_append.mp hn with hn | hn
      · exact hinv.order_keys n hn
      · exact absurd (List.mem_singleton.mp hn) hne
  · rw [hpo, hado]
    cases hc : cls.is_constrained with
    | false =>
      simp only [Bool.false_eq_true, if_false]
      exact hinv.aux_sub.trans (List.sublist_append_left _ _)
    | true =>
      simp only [if_true]
      exact hinv.aux_sub.append (List.Sublist.refl _)
  · intro hnd
    rw [hpo, List.nodup_append] at hnd
    obtain ⟨hold, _, hdisj⟩ := hnd
    have hfresh : md.name ∉ cfg.par_order :=
      fun hm => hdisj hm (List.mem_singleton_self _)
    obtain ⟨hcontig, hauxlen⟩ := hinv.alloc hold
    have hlookup_pres : ∀ n ∈ cfg.par_order,
        plookup n (allocConfig cfg sd md cls).par_map = plookup n cfg.par_map := by
      intro n hn
      rw [hpm, plookup_cons_ne _ _ _ _ (fun he => hfresh (by rw [← he]; exact hn))]
    have hps : parSlices (allocConfig cfg sd md cls) = parSlices cfg ++
        [(cfg.next_index,
          cfg.next_index + (ModifierInstance.mk cls sd md.data).n_parameters)] := by
      unfold parSlices
      rw [hpo, List.map_append]
      congr 1
      · apply List.map_congr_left
        intro n hn
        rw [hlookup_pres n hn]
      · simp only [List.map_cons, List.map_nil, hpm, plookup_cons_self]
    have hsum_pres : (cfg.auxdata_order.map (fun n =>
        match plookup n (allocConfig cfg sd md cls).par_map with
        | some e => e.modifier.n_parameters
        | none => 0)).sum = constrainedParCount cfg := by
      unfold constrainedParCount
      congr 1
      apply List.map_congr_left
      intro n hn
      rw [hlookup_pres n (hinv.aux_sub.subset hn)]
    constructor
    · rw [hps, hni]
      exact contig_append_single _ _ _ _ hcontig (Nat.le_add_right _ _)
    · unfold constrainedParCount
      rw [had, hado]
      cases hc : cls.is_constrained with
      | false =>
        simp only [Bool.false_eq_true, if_false]
        rw [hsum_pres]
        exact hauxlen
      | true =>
        simp only [if_true]
        rw [List.length_append, List.map_append, List.sum_append]
        have hnew : (([md.name] : List String).map (fun n =>
            match plookup n (allocConfig cfg sd md cls).par_map with
            | some e => e.modifier.n_parameters
            | none => 0)).sum =
            (ModifierInstance.mk cls sd md.data).n_parameters := by
          simp only [List.map_cons, List.map_nil, hpm, plookup_cons_self]
          simp
        rw [hnew, hsum_pres]
        have hauxlen_new : (ModifierInstance.mk cls sd md.data).auxdata.length =
            (ModifierInstance.mk cls sd md.data).n_parameters :=
          (hclswf.2 sd md.data).2.2 hc
        omega

theorem add_or_get_inv (registry : Registry) (hwf : RegistryWF registry)
    (cfg : Config) (sd : List ℚ) (md : ModifierDef) (cfg' : Config)
    (mi : ModifierInstance) (hinv : ConfigInv cfg)
    (h : add_or_get_modifier registry cfg sd md = .ok (cfg', mi)) :
    ConfigInv cfg' := by
  cases hreg : plookup md.mtype registry with
  | none => rw [add_or_get_noreg registry cfg sd md hreg] at h; cases h
  | some cls =>
    cases hif : (if cls.is_shared then plookup md.name cfg.par_map else none) with
    | some entry =>
      obtain ⟨hsh, hmap⟩ := ite_shared_some cls cfg md.name entry hif
      by_cases htype : entry.modifier.cls.clsName = md.mtype
      · rw [add_or_get_reuse registry cfg sd md cls entry hreg hsh hmap htype] at h
        injection h with h'
        have hcc : cfg = cfg' := congrArg Prod.fst h'
        exact hcc ▸ hinv
      · rw [add_or_get_reuse_err registry cfg sd md cls entry hreg hsh hmap htype] at h
        cases h
    | none =>
      rw [add_or_get_alloc registry cfg sd md cls hreg hif] at h
      injection h with h'
      have hcc : allocConfig cfg sd md cls = cfg' := congrArg Prod.fst h'
      exact hcc ▸ allocConfig_inv registry hwf cfg sd md cls hreg hinv

theorem foldE_inv {σ α : Type} (f : σ → α → Except ModelError σ) (P : σ → Prop)
    (hstep : ∀ s a s', P s → f s a = .ok s' → P s') :
    ∀ (l : List α) (s s' : σ), P s → foldE f s l = .ok s' → P s' := by
  intro l
  induction l with
  | nil =>
    intro s s' hP h
    unfold foldE at h
    injection h with h'
    exact h' ▸ hP
  | cons a t ih =>
    intro s s' hP h
    unfold foldE at h
    cases hf : f s a with
    | error e => rw [hf] at h; cases h
    | ok s1 => rw [hf] at h; exact ih s1 s' (hstep s a s1 hP hf) h

theorem processModifierDef_inv (registry : Registry) (hwf : RegistryWF registry)
    (q : Bool) (sd : List ℚ) (st st' : FromSpecState) (md : ModifierDef)
    (hinv : ConfigInv st.cfg)
    (h : processModifierDef registry q sd st md = .ok st') : ConfigInv st'.cfg := by
  simp only [processModifierDef] at h
  cases hmod : add_or_get_modifier registry st.cfg sd
      (if q then { md with name := md.mtype ++ "/" ++ md.name } else md) with
  | error e => rw [hmod] at h; cases h
  | ok p =>
    obtain ⟨cfg1, mi⟩ := p
    rw [hmod] at h
    simp only [Except.ok.injEq] at h
    have hcfg : st'.cfg = cfg1 := by rw [← h]
    rw [hcfg]
    exact add_or_get_inv registry hwf st.cfg sd _ cfg1 mi hinv hmod

theorem processSample_inv (registry : Registry) (hwf : RegistryWF registry)
    (q : Bool) (st st' : FromSpecState) (s : Sample)
    (hinv : ConfigInv st.cfg)
    (h : processSample registry q st s = .ok st') : ConfigInv st'.cfg := by
  unfold processSample at h
  exact foldE_inv _ (fun st => ConfigInv st.cfg)
    (fun s1 a s2 hP hf => processModifierDef_inv registry hwf q s.data s1 s2 a hP hf)
    s.modifiers _ st' hinv h

theorem processChannel_inv (registry : Registry) (hwf : RegistryWF registry)
    (q : Bool) (st st' : FromSpecState) (c : Channel)
    (hinv : ConfigInv st.cfg)
    (h : processChannel registry q st c = .ok st') : ConfigInv st'.cfg := by
  unfold processChannel at h
  exact foldE_inv _ (fun st => ConfigInv st.cfg)
    (fun s1 a s2 hP hf => processSample_inv registry hwf q s1 s2 a hP hf)
    c.samples _ st' hinv h

theorem initConfig_inv : ConfigInv initConfig := by
  constructor
  · intro p hp; cases hp
  · intro n hn; cases hn
  · exact List.Sublist.refl []
  · intro _
    exact ⟨rfl, rfl⟩

theorem processSpec_inv (registry : Registry) (hwf : RegistryWF registry)
    (q : Bool) (poi : String) (spec : PyhfSpec) (st : FromSpecState)
    (h : processSpec registry q poi spec = .ok st) : ConfigInv st.cfg := by
  unfold processSpec at h
  exact foldE_inv _ (fun st => ConfigInv st.cfg)
    (fun s1 a s2 hP hf => processChannel_inv registry hwf q s1 s2 a hP hf)
    spec.channels _ st initConfig_inv h

theorem configInv_of_parts (cfg cfg' : Config) (hinv : ConfigInv cfg)
    (h1 : cfg'.par_map = cfg.par_map) (h2 : cfg'.par_order = cfg.par_order)
    (h3 : cfg'.auxdata = cfg.auxdata) (h4 : cfg'.auxdata_order = cfg.auxdata_order)
    (h5 : cfg'.next_index = cfg.next_index) : ConfigInv cfg' := by
  constructor
  · rw [h1]; exact hinv.entries
  · intro n hn; rw [h1]; exact hinv.order_keys n (h2 ▸ hn)
  · rw [h2, h4]; exact hinv.aux_sub
  · intro hnd
    rw [h2] at hnd
    obtain ⟨hcontig, hlen⟩ := hinv.alloc hnd
    have hps : parSlices cfg' = parSlices cfg := by
      unfold parSlices
      rw [h1, h2]
    have hcc : constrainedParCount cfg' = constrainedParCount cfg := by
      unfold constrainedParCount
      rw [h1, h4]
    exact ⟨by rw [hps, h5]; exact hcontig, by rw [h3, hcc]; exact hlen⟩

theorem from_spec_inv (registry : Registry) (spec : PyhfSpec) (poi : String)
    (q : Bool) (cfg : Config) (hwf : RegistryWF registry)
    (h : from_spec registry spec poi q = .ok cfg) : ConfigInv cfg := by
  unfold from_spec at h
  cases hps : processSpec registry q poi spec with
  | error e => rw [hps] at h; cases h
  | ok st =>
    rw [hps] at h
    have hst : ConfigInv st.cfg := processSpec_inv registry hwf q poi spec st hps
    have hrec : ConfigInv (dedupedConfig st) :=
      configInv_of_parts st.cfg _ hst rfl rfl rfl rfl rfl
    replace h : set_poi (dedupedConfig st) st.poiname = Except.ok cfg := h
    unfold set_poi at h
    by_cases hmem : st.poiname ∈ (dedupedConfig st).modifiers
    · rw [if_pos hmem] at h
      cases hl : plookup st.poiname (dedupedConfig st).par_map with
      | none => rw [hl] at h; cases h
      | some e =>
        rw [hl] at h
        replace h : (if e.sl.2 - e.sl.1 = 1 then
            Except.ok { dedupedConfig st with poi_index := some e.sl.1 }
          else Except.error ModelError.AssertionError) = Except.ok cfg := h
        by_cases hw : e.sl.2 - e.sl.1 = 1
        · rw [if_pos hw] at h
          injection h with h'
          rw [← h']
          exact configInv_of_parts _ _ hrec rfl rfl rfl rfl rfl
        · rw [if_neg hw] at h; cases h
    · rw [if_neg hmem] at h; cases h

theorem widths_eq_nparams (cfg : Config) (hinv : ConfigInv cfg) :
    (parSlices cfg).map sliceWidth = parNParams cfg := by
  unfold parSlices parNParams
  rw [List.map_map]
  apply List.map_congr_left
  intro n hn
  show sliceWidth (match plookup n cfg.par_map with
    | some e => e.sl
    | none => (0, 0)) = _
  cases hl : plookup n cfg.par_map with
  | none =>
    have := hinv.order_keys n hn
    rw [hl] at this
    simp at this
  | some e =>
    have hwfE := hinv.entries (n, e) (plookup_mem _ _ _ hl)
    show sliceWidth e.sl = e.modifier.n_parameters
    have h1 : e.sl.2 = e.sl.1 + e.modifier.n_parameters := hwfE.1
    unfold sliceWidth
    omega

theorem foldl_append_eq {α β : Type} (f : α → List β) (l : List α) :
    ∀ (init : List β),
      l.foldl (fun acc x => acc ++ f x) init = init ++ (l.map f).flatten := by
  induction l with
  | nil => intro init; simp
  | cons x t ih =>
    intro init
    rw [List.foldl_cons, ih, List.map_cons, List.flatten_cons, List.append_assoc]

theorem suggestedInit_length (cfg : Config) (hinv : ConfigInv cfg) :
    cfg.suggestedInit.length = (parNParams cfg).sum := by
  show (cfg.par_order.foldl (fun init name =>
      init ++ (match plookup name cfg.par_map with
               | some e => e.modifier.suggested_init
               | none => [])) []).length = _
  rw [foldl_append_eq (fun name => match plookup name cfg.par_map with
    | some e => e.modifier.suggested_init
    | none => []) cfg.par_order [], List.nil_append, List.length_flatten, List.map_map]
  unfold parNParams
  congr 1
  apply List.map_congr_left
  intro n hn
  show (match plookup n cfg.par_map with
    | some e => e.modifier.suggested_init
    | none => ([] : List ℚ)).length = _
  cases hl : plookup n cfg.par_map with
  | none =>
    have := hinv.order_keys n hn
    rw [hl] at this
    simp at this
  | some e => exact (hinv.entries (n, e) (plookup_mem _ _ _ hl)).2.1

theorem suggestedBounds_length (cfg : Config) (hinv : ConfigInv cfg) :
    cfg.suggestedBounds.length = (parNParams cfg).sum := by
  show (cfg.par_order.foldl (fun bounds name =>
      bounds ++ (match plookup name cfg.par_map with
                 | some e => e.modifier.suggested_bounds
                 | none => [])) []).length = _
  rw [foldl_append_eq (fun name => match plookup name cfg.par_map with
    | some e => e.modifier.suggested_bounds
    | none => []) cfg.par_order [], List.nil_append, List.length_flatten, List.map_map]
  unfold parNParams
  congr 1
  apply List.map_congr_left
  intro n hn
  show (match plookup n cfg.par_map with
    | some e => e.modifier.suggested_bounds
    | none => ([] : List (ℚ × ℚ))).length = _
  cases hl : plookup n cfg.par_map with
  | none =>
    have := hinv.order_keys n hn
    rw [hl] at this
    simp at this
  | some e => exact (hinv.entries (n, e) (plookup_mem _ _ _ hl)).2.2.1

/-- pyhf_C7: after a successful configuration construction the next free
parameter index — which is also the length of `suggested_init()` and of
`suggested_bounds()` — equals the sum of the registered modifier instances'
parameter counts, and the per-name slices are contiguous in `par_order`
(each slice starting where the previous allocation ended) and pairwise
disjoint half-open ranges. -/
theorem pyhf_C7 (registry : Registry) (spec : PyhfSpec) (poi : String) (q : Bool)
    (cfg : Config) (hwf : RegistryWF registry)
    (h : from_spec registry spec poi q = .ok cfg) (hnd : cfg.par_order.Nodup) :
    cfg.next_index = ((parSlices cfg).map sliceWidth).sum ∧
    cfg.next_index = (parNParams cfg).sum ∧
    cfg.suggestedInit.length = cfg.next_index ∧
    cfg.suggestedBounds.length = cfg.next_index ∧
    Contig 0 (parSlices cfg) cfg.next_index ∧
    (parSlices cfg).Pairwise (fun s t => s.2 ≤ t.1) := by
  have hinv := from_spec_inv registry spec poi q cfg hwf h
  obtain ⟨hcontig, _⟩ := hinv.alloc hnd
  have h1 : cfg.next_index = 0 + ((parSlices cfg).map sliceWidth).sum :=
    contig_sum _ _ _ hcontig
  have hw := widths_eq_nparams cfg hinv
  refine ⟨by omega, by rw [← hw]; omega, ?_, ?_, hcontig,
    contig_pairwise _ _ _ hcontig⟩
  · rw [suggestedInit_length cfg hinv, ← hw]
    omega
  · rw [suggestedBounds_length cfg hinv, ← hw]
    omega

theorem reg0_wf : RegistryWF reg0 := by
  intro p hp
  simp only [reg0, List.mem_cons, List.not_mem_nil, or_false] at hp
  rcases hp with rfl | rfl | rfl
  · exact ⟨rfl, fun _ _ => ⟨rfl, rfl, fun hc => by cases hc⟩⟩
  · exact ⟨rfl, fun _ _ => ⟨rfl, rfl, fun _ => rfl⟩⟩
  · exact ⟨rfl, fun _ _ => ⟨rfl, rfl, fun _ => rfl⟩⟩

theorem pyhf_C7_witness :
    cfg0.suggestedInit.length = cfg0.next_index ∧ cfg0.next_index = 2 := by
  have h := pyhf_C7 reg0 spec0 "mu" false cfg0 reg0_wf rfl (by decide)
  exact ⟨h.2.2.1, rfl⟩

/-- pyhf_C5: configuration construction fails with `InvalidModel` when the
designated POI name is not among the declared modifiers, and also fails (with
`AssertionError`, from the width assert) when the POI name resolves to a
parameter slice whose width is not exactly 1. -/
theorem pyhf_C5 (registry : Registry) (spec : PyhfSpec) (poi : String) (q : Bool)
    (st : FromSpecState) (h : processSpec registry q poi spec = .ok st) :
    (st.poiname ∉ st.modifiers →
      from_spec registry spec poi q = .error .InvalidModel) ∧
    (∀ e : ParMapEntry, st.poiname ∈ st.modifiers →
      plookup st.poiname st.cfg.par_map = some e → e.sl.2 - e.sl.1 ≠ 1 →
      from_spec registry spec poi q = .error .AssertionError) := by
  have hred : from_spec registry spec poi q = set_poi (dedupedConfig st) st.poiname := by
    unfold from_spec
    rw [h]
  constructor
  · intro hnm
    rw [hred]
    unfold set_poi
    rw [if_neg (show ¬ st.poiname ∈ (dedupedConfig st).modifiers from
      fun hm => hnm (List.mem_dedup.mp hm))]
  · intro e hm hl hw
    rw [hred]
    unfold set_poi
    rw [if_pos (show st.poiname ∈ (dedupedConfig st).modifiers from List.mem_dedup.mpr hm)]
    rw [show plookup st.poiname (dedupedConfig st).par_map = some e from hl]
    show (if e.sl.2 - e.sl.1 = 1 then
        Except.ok { dedupedConfig st with poi_index := some e.sl.1 }
      else Except.error ModelError.AssertionError) = Except.error ModelError.AssertionError
    rw [if_neg hw]

theorem pyhf_C5_witness :
    from_spec reg0 spec0 "nonexistent" false = .error .InvalidModel ∧
    from_spec reg0 spec5b "uncert" false = .error .AssertionError := by
  have h1 := pyhf_C5 reg0 spec0 "nonexistent" false st5 rfl
  have h2 := pyhf_C5 reg0 spec5b "uncert" false st5b rfl
  exact ⟨h1.1 (by decide), h2.2 entry5b (by decide) rfl (by decide)⟩

/-- pyhf_C6: re-declaring an already-registered modifier name with the same
(shared) type returns the existing modifier instance with the configuration
unchanged (one shared slice, no new allocation), while re-declaring the name
with a different (shared) type raises `InvalidNameReuse`. -/
theorem pyhf_C6 (registry : Registry) (cfg : Config) (sd : List ℚ)
    (md : ModifierDef) (cls : ModifierClass) (entry : ParMapEntry)
    (hreg : plookup md.mtype registry = some cls)
    (hsh : cls.is_shared = true)
    (hmap : plookup md.name cfg.par_map = some entry) :
    (entry.modifier.cls.clsName = md.mtype →
      add_or_get_modifier registry cfg sd md = .ok (cfg, entry.modifier)) ∧
    (entry.modifier.cls.clsName ≠ md.mtype →
      add_or_get_modifier registry cfg sd md = .error .InvalidNameReuse) :=
  ⟨fun ht => add_or_get_reuse registry cfg sd md cls entry hreg hsh hmap ht,
   fun ht => add_or_get_reuse_err registry cfg sd md cls entry hreg hsh hmap ht⟩

theorem pyhf_C6_witness :
    add_or_get_modifier reg0 cfgA [50, 52] ⟨"mu", "normfactor", []⟩ =
      .ok (cfgA, entryA.modifier) ∧
    add_or_get_modifier reg0 cfgA [50, 52] ⟨"mu", "histosys", [0]⟩ =
      .error .InvalidNameReuse := by
  have hmap : plookup "mu" cfgA.par_map = some entryA := rfl
  have h1 := pyhf_C6 reg0 cfgA [50, 52] ⟨"mu", "normfactor", []⟩ normfactorCls entryA
    rfl rfl hmap
  have h2 := pyhf_C6 reg0 cfgA [50, 52] ⟨"mu", "histosys", [0]⟩ histosysCls entryA
    rfl rfl hmap
  exact ⟨h1.1 rfl, h2.2 (by decide)⟩

/-- pyhf_C2: `logpdf(pars, data)` splits `data` positionally into a leading
actual segment whose length is the number of channels and a trailing
auxiliary segment whose length is the total constrained-parameter count, and
returns the Poisson log-likelihood of the actual segment against
`expected_actualdata(pars)` plus `constraint_logpdf` of the auxiliary
segment, packaged as a length-1 tensor. -/
theorem pyhf_C2 (registry : Registry) (spec : PyhfSpec) (poi : String) (q : Bool)
    (results : List ℚ → Nat × List ResultEntry) (fstats : String → List ℚ)
    (backend : BackendFns) (M : ModelEmb) (pars data : List ℚ)
    (hwf : RegistryWF registry)
    (hM : mkModel registry spec poi q results fstats backend = .ok M)
    (hnd : M.config.par_order.Nodup)
    (hdata : data.length = spec.channels.length + constrainedParCount M.config) :
    logpdf M pars data =
      [(List.zipWith (fun d lam => M.backend.log (M.backend.poisson d lam))
          (data.take spec.channels.length) (expected_actualdata M pars)).sum
        + constraint_logpdf M (data.drop spec.channels.length) pars] ∧
    (logpdf M pars data).length = 1 ∧
    (data.take spec.channels.length).length = spec.channels.length ∧
    (data.drop spec.channels.length).length = constrainedParCount M.config := by
  have hfs : from_spec registry spec poi q = .ok M.config := by
    unfold mkModel at hM
    cases hfs' : from_spec registry spec poi q with
    | error e => rw [hfs'] at hM; cases hM
    | ok cfgv =>
      rw [hfs'] at hM
      cases hmc : make_cube spec with
      | error e => rw [hmc] at hM; cases hM
      | ok r =>
        rw [hmc] at hM
        injection hM with hM'
        rw [← hM']
  have hinv := from_spec_inv registry spec poi q M.config hwf hfs
  have hauxlen : M.config.auxdata.length = constrainedParCount M.config :=
    (hinv.alloc hnd).2
  have hcut : data.length - M.config.auxdata.length = spec.channels.length := by omega
  refine ⟨?_, rfl, ?_, ?_⟩
  · show [(List.zipWith (fun d lam => M.backend.log (M.backend.poisson d lam))
        (data.take (data.length - M.config.auxdata.length))
        (expected_actualdata M pars)).sum
      + constraint_logpdf M (data.drop (data.length - M.config.auxdata.length)) pars] = _
    rw [hcut]
  · rw [List.length_take]
    omega
  · rw [List.length_drop]
    omega

theorem pyhf_C2_witness :
    (logpdf M0 [1, 0] [51, 0]).length = 1 := by
  have h := pyhf_C2 reg0 spec0 "mu" false resultsId (fun _ => []) backend0 M0
    [1, 0] [51, 0] reg0_wf rfl (by decide) (by decide)
  exact h.2.1

end PyhfProof
